import Mathlib

/-!
Verification of the dataclaw repository: a shallow embedding, in Lean, of the
anonymization engine (`dataclaw/anonymizer.py`), the line-log session parser
(`dataclaw/parser.py`) and the key-value session parser
(`dataclaw/parsers/cursor.py`), together with theorems settling the frozen
claims about them.

Python strings are modelled as `List Nat` of character code points; Python
`None`/absent dictionary entries are modelled with `Option`; external
collaborators (the Scout anonymizer tool, the secret redactor from the
`dataclaw.secrets` module, the JSON decoder) are modelled as function
parameters, matching the interface boundary the spec draws around them.
-/

namespace Dataclaw

/-- Code points of a Lean string literal, used to write concrete Python strings. -/
def sN (s : String) : List Nat := s.data.map Char.toNat

/-- The regex character class `[a-zA-Z0-9]` used in the lookbehind/lookahead of
the username patterns in `anonymizer.py`. -/
def isAlnumA (n : Nat) : Bool :=
  decide ((65 ≤ n ∧ n ≤ 90) ∨ (97 ≤ n ∧ n ≤ 122) ∨ (48 ≤ n ∧ n ≤ 57))

/-- ASCII lower-casing of one code point, modelling `re.IGNORECASE` folding and
`str.lower()` on the ASCII range. -/
def lowerA (n : Nat) : Nat := if 65 ≤ n ∧ n ≤ 90 then n + 32 else n

/-- `str.lower()` of a whole string (ASCII model). -/
def lowers (l : List Nat) : List Nat := l.map lowerA

/-- The regex character class `[/\\-]` of `_get_home_pattern` and
`_get_custom_home_pattern` (slash, backslash, hyphen). -/
def isSepC (n : Nat) : Bool := decide (n = 47 ∨ n = 92 ∨ n = 45)

/-- Python whitespace stripped by `str.strip()` (ASCII model). -/
def isWsC (n : Nat) : Bool := decide (n = 32 ∨ n = 9 ∨ n = 10 ∨ n = 13 ∨ n = 11 ∨ n = 12)

/-- `str.strip()`: drop whitespace from both ends. -/
def pyStrip (l : List Nat) : List Nat :=
  ((l.dropWhile isWsC).reverse.dropWhile isWsC).reverse

/-- The lookbehind `(?<![a-zA-Z0-9])`: satisfied at string start (`none`) or
after a non-alphanumeric character. -/
def prevOk (p : Option Nat) : Bool :=
  match p with
  | none => true
  | some c => !(isAlnumA c)

/-- Case-insensitive literal match of `u` at the head of `l` (the escaped
username literal under `re.IGNORECASE`). -/
def ciLead (u l : List Nat) : Bool := decide (lowers (l.take u.length) = lowers u)

/-- The lookahead `(?![a-zA-Z0-9])` (equally `(?=[^a-zA-Z0-9]|$)`) placed after
a match of `u`: end of string or a non-alphanumeric next character. -/
def aheadOk (u l : List Nat) : Bool :=
  match l.drop u.length with
  | [] => true
  | c :: _ => !(isAlnumA c)

/-- Matcher for `_get_username_pattern(username)`:
`(?<![a-zA-Z0-9])escaped(?![a-zA-Z0-9])` with `re.IGNORECASE`, paired with the
replacement string (the username hash) used in `pattern.sub`. -/
def mUser (u hsh : List Nat) (p : Option Nat) (l : List Nat) : Option (Nat × List Nat) :=
  if prevOk p && ciLead u l && aheadOk u l then some (u.length, hsh) else none

/-- Fuelled scanner realizing `re.Pattern.sub` for the patterns of
`anonymizer.py`: at each position try the matcher (which receives the previous
original character for its lookbehind and returns consumed length and
replacement); on a match emit the replacement and resume right after the
consumed region; otherwise copy one character. Fuel is the remaining length, so
`scanSub` below never exhausts it. -/
def scanSubF (m : Option Nat → List Nat → Option (Nat × List Nat)) :
    Nat → Option Nat → List Nat → List Nat
  | 0, _, l => l
  | _ + 1, _, [] => []
  | fuel + 1, p, c :: rest =>
    match m p (c :: rest) with
    | some (k + 1, repl) => repl ++ scanSubF m fuel ((c :: rest).get? k) (rest.drop k)
    | _ => c :: scanSubF m fuel (some c) rest

/-- `pattern.sub` over a whole string, with an initial left context. -/
def scanSub (m : Option Nat → List Nat → Option (Nat × List Nat))
    (p : Option Nat) (l : List Nat) : List Nat :=
  scanSubF m l.length p l

/-- `_get_username_pattern(username).sub(username_hash, text)`. -/
def subUsername (u hsh text : List Nat) : List Nat := scanSub (mUser u hsh) none text

/-- The `(Users|home)` alternation of `_get_home_pattern`: length of the
keyword matched case-insensitively at the head of `l`, `Users` tried first. -/
def kwLen (l : List Nat) : Option Nat :=
  if ciLead (sN "users") l then some 5
  else if ciLead (sN "home") l then some 4
  else none

/-- Backtracking of the greedy second `[/\\-]+` run of `_get_home_pattern`:
try run lengths from the maximal one down to 1, requiring the username (with
its trailing lookahead) right after the run. Returns the chosen run length. -/
def tryTail (u l2 : List Nat) : Nat → Option Nat
  | 0 => none
  | kk + 1 =>
    if ciLead u (l2.drop (kk + 1)) && aheadOk u (l2.drop (kk + 1)) then some (kk + 1)
    else tryTail u l2 kk

/-- Matcher for `_get_home_pattern(username)`:
`([/\\-]+(Users|home)[/\\-]+)escaped(?=[^a-zA-Z0-9]|$)` with `re.IGNORECASE`,
substituted by `\g<1>` (the original matched group 1) followed by the hash. -/
def mHome (u hsh : List Nat) (_p : Option Nat) (l : List Nat) : Option (Nat × List Nat) :=
  let r1 := (l.takeWhile isSepC).length
  if r1 = 0 then none
  else
    match kwLen (l.drop r1) with
    | none => none
    | some k =>
      let l2 := (l.drop r1).drop k
      match tryTail u l2 (l2.takeWhile isSepC).length with
      | none => none
      | some kk => some (r1 + k + kk + u.length, l.take (r1 + k + kk) ++ hsh)

/-- `_get_home_pattern(username).sub(r"\g<1>hash", text)`. -/
def homeSub (u hsh text : List Nat) : List Nat := scanSub (mHome u hsh) none text

/-- One token of the compiled custom home pattern of
`_get_custom_home_pattern`: a flexible separator run `[/\\-]+`, an optional
colon `:?`, or a literal (case-insensitive) character. -/
inductive HTok where
  | sep : HTok
  | optColon : HTok
  | lit : Nat → HTok
deriving DecidableEq, Repr

/-- Compilation of a home path into tokens: `home.replace("\\", "/")`, then
escape for literal matching, then `/` relaxed to `[/\\-]+` and `:` to `:?`. -/
def homeToks (home : List Nat) : List HTok :=
  (home.map (fun n => if n = 92 then 47 else n)).map
    (fun n => if n = 47 then HTok.sep else if n = 58 then HTok.optColon else HTok.lit n)

/-- Backtracking matcher for a token list at the head of `l` (greedy runs and
greedy optional colon, alternatives in the order the regex engine tries them);
returns the consumed length. -/
def matchToks : List HTok → List Nat → Option Nat
  | [], _ => some 0
  | HTok.lit c :: ts, x :: l =>
    if lowerA x = lowerA c then (matchToks ts l).map (· + 1) else none
  | HTok.lit _ :: _, [] => none
  | HTok.optColon :: ts, l =>
    (match l with
     | 58 :: l2 => (matchToks ts l2).map (· + 1)
     | _ => none) <|> matchToks ts l
  | HTok.sep :: ts, x :: l =>
    if isSepC x then ((matchToks (HTok.sep :: ts) l) <|> matchToks ts l).map (· + 1)
    else none
  | HTok.sep :: _, [] => none
termination_by ts l => (l.length, ts.length)

/-- `_get_custom_home_pattern(home)`: `None` for conventional homes (the
standard `/Users/`, `/home/`, `C:\Users\` prefixes), otherwise the compiled
token pattern. -/
def customHomePat (home : List Nat) : Option (List HTok) :=
  if (sN "/Users/").isPrefixOf home || (sN "/home/").isPrefixOf home
      || (sN "C:\\Users\\").isPrefixOf home then none
  else some (homeToks home)

/-- Matcher for the custom home pattern whose substitution runs the short
username pattern inside the matched region only (`pat_user.sub` on
`match.group(0)`); a zero-length match (possible only from a degenerate home)
substitutes the empty region unchanged, so it is treated as no match. -/
def mCustom (u hsh : List Nat) (toks : List HTok) (_p : Option Nat) (l : List Nat) :
    Option (Nat × List Nat) :=
  match matchToks toks l with
  | some (k + 1) => some (k + 1, subUsername u hsh (l.take (k + 1)))
  | _ => none

/-- `pat_home.sub(f, text)` where `f` replaces the username inside the matched
home-path region. -/
def customSub (u hsh : List Nat) (toks : List HTok) (text : List Nat) : List Nat :=
  scanSub (mCustom u hsh toks) none text

/-- Membership of the head of a list. -/
def hasLead (a l : List Nat) : Bool := decide (l.take a.length = a)

/-- Helper for Python `in`: is `a` the head of some suffix of `l`. -/
def subAt (a : List Nat) : List Nat → Bool
  | [] => decide (a = [])
  | c :: rest => hasLead a (c :: rest) || subAt a rest

/-- `username.lower() in text.lower()`: case-insensitive substring test. -/
def ciSub (u t : List Nat) : Bool := subAt (lowers u) (lowers t)

/-- `anonymize_text(text, username, username_hash, home)` from
`dataclaw/anonymizer.py` (an absent/empty `home` is the empty list, matching
Python falsiness of both `None` and `""`). -/
def anonymizeText (text u hsh home : List Nat) : List Nat :=
  if text = [] ∨ u = [] then text
  else if !(ciSub u text) then text
  else if 4 ≤ u.length then subUsername u hsh text
  else
    let t1 := homeSub u hsh text
    if home = [] then t1
    else
      match customHomePat home with
      | none => t1
      | some toks => customSub u hsh toks t1

/-- The state of the `Anonymizer` class: detected home and username, the
username hash, the alternate-identity dictionary (insertion-ordered,
lower-cased keys) and the alternation order of its compiled extra pattern
(keys sorted by decreasing length, stably). -/
structure AnonState where
  home : List Nat
  username : List Nat
  usernameHash : List Nat
  extraDict : List (List Nat × List Nat)
  extraOrder : List (List Nat)
deriving DecidableEq, Repr

/-- Python dict assignment `d[k] = v`: update in place or append. -/
def dictUpd (d : List (List Nat × List Nat)) (k v : List Nat) :
    List (List Nat × List Nat) :=
  match d with
  | [] => [(k, v)]
  | (k0, v0) :: rest => if k0 = k then (k0, v) :: rest else (k0, v0) :: dictUpd rest k v

/-- Python dict lookup (total here; in the source the key is always present). -/
def dictGet (d : List (List Nat × List Nat)) (k : List Nat) : List Nat :=
  match d with
  | [] => []
  | (k0, v0) :: rest => if k0 = k then v0 else dictGet rest k

/-- Stable insertion for sorting by decreasing length (ties keep earlier
elements first, as Python's stable `sorted`). -/
def insertByLen (x : List Nat) : List (List Nat) → List (List Nat)
  | [] => [x]
  | y :: ys => if x.length ≤ y.length then y :: insertByLen x ys else x :: y :: ys

/-- `sorted(keys, key=len, reverse=True)` over the dict keys in insertion
order. -/
def sortKeysDesc (ks : List (List Nat)) : List (List Nat) :=
  ks.foldl (fun acc k => insertByLen k acc) []

/-- The `Anonymizer.__init__` construction: strip each extra name, keep those
that are non-empty, differ from the primary username and have length at least
4; key them by their lower-casing. The content hash (`_hash_username`) is
abstracted as the `hashFn` parameter: it is a pure function of the name and no
claim depends on its value. -/
def mkAnonState (home username : List Nat) (hashFn : List Nat → List Nat)
    (extras : List (List Nat)) : AnonState :=
  let d := extras.foldl
    (fun d name =>
      let s := pyStrip name
      if s ≠ [] ∧ s ≠ username ∧ 4 ≤ s.length then dictUpd d (lowers s) (hashFn s) else d)
    []
  { home := home
    username := username
    usernameHash := hashFn username
    extraDict := d
    extraOrder := sortKeysDesc (d.map (·.1)) }

/-- Matcher for the compiled extra-identities pattern
`(?<![a-zA-Z0-9])(name1|name2|...)(?![a-zA-Z0-9])` (names lower-cased, longest
first), substituting the dictionary hash of the matched identity; the matched
text lower-cased equals the (already lower-case) alternative, so the lookup
key is the alternative itself. -/
def mExtra (names : List (List Nat)) (d : List (List Nat × List Nat))
    (p : Option Nat) (l : List Nat) : Option (Nat × List Nat) :=
  if prevOk p then
    match names.find? (fun nm => ciLead nm l && aheadOk nm l) with
    | some nm => some (nm.length, dictGet d nm)
    | none => none
  else none

/-- `Anonymizer.text`: the core `anonymize_text` followed by the
alternate-identities substitution (which runs whenever any extras are
configured). -/
def anonStateText (st : AnonState) (content : List Nat) : List Nat :=
  let result := anonymizeText content st.username st.usernameHash st.home
  if st.extraOrder = [] then result
  else scanSub (mExtra st.extraOrder st.extraDict) none result

/-- `Anonymizer.path` delegates to `Anonymizer.text`. -/
def anonStatePath (st : AnonState) (p : List Nat) : List Nat := anonStateText st p

/-! ## The line-log session parser (`dataclaw/parser.py`) -/

/-- The raw `timestamp` value of a record: an ISO string, a numeric
epoch-milliseconds value, an absent field, or any other shape. -/
inductive TsVal where
  | str : List Nat → TsVal
  | num : Int → TsVal
  | absent : TsVal
  | other : TsVal
deriving DecidableEq, Repr

/-- A normalized timestamp as produced by `_normalize_timestamp`: a string
kept as-is, or an epoch-milliseconds value converted to an ISO-8601 UTC
string. The rendering of `datetime.fromtimestamp(ms / 1000, utc).isoformat()`
is kept abstract as the injective constructor `epochIso`; no claim inspects
the rendered text. -/
inductive NormTs where
  | iso : List Nat → NormTs
  | epochIso : Int → NormTs
deriving DecidableEq, Repr

/-- `_normalize_timestamp`: strings pass through, numbers are converted, any
other shape yields `None`. -/
def normTs : TsVal → Option NormTs
  | .str s => some (.iso s)
  | .num n => some (.epochIso n)
  | _ => none

/-- The fields of a tool-input mapping that `_summarize_tool_input` reads
(`.get(key, "")` is modelled by `Option` plus `getD []`), together with the
`str(input_data)` rendering used by the default branch. -/
structure ToolDict where
  filePath : Option (List Nat)
  content : Option (List Nat)
  pattern : Option (List Nat)
  path : Option (List Nat)
  command : Option (List Nat)
  prompt : Option (List Nat)
  query : Option (List Nat)
  url : Option (List Nat)
  pyRepr : List Nat
deriving DecidableEq, Repr

/-- A tool-invocation input: a mapping, or a non-mapping value carried by its
`str()` rendering. -/
inductive InputVal where
  | dict : ToolDict → InputVal
  | nondict : List Nat → InputVal
deriving DecidableEq, Repr

/-- The anonymizer interface used by the parser (`AnonymizerWrapper`,
`PassthroughAnonymizer` or `Anonymizer` all provide `text` and `path`). -/
structure TextAnon where
  text : List Nat → List Nat
  path : List Nat → List Nat

/-- `PassthroughAnonymizer`: the identity on text and paths. -/
def passthroughAnon : TextAnon := ⟨id, id⟩

/-- `MAX_TOOL_INPUT_LENGTH`. -/
def maxToolInputLength : Nat := 300

/-- `_redact_and_truncate`: redact secrets, truncate to the maximum length,
then anonymize. The secret redactor (`redact_text` from `dataclaw.secrets`,
an external collaborator not among these sources) is the parameter `redact`,
standing for the first component of its `(redacted_text, found)` result. -/
def redactAndTruncate (redact : List Nat → List Nat) (anon : TextAnon)
    (text : List Nat) : List Nat :=
  anon.text ((redact text).take maxToolInputLength)

/-- `_summarize_tool_input`: per-tool-name dispatch over the lower-cased tool
name building the exported input summary. -/
def summarizeToolInput (redact : List Nat → List Nat) (anon : TextAnon)
    (toolName : Option (List Nat)) (inputData : InputVal) : List Nat :=
  match inputData with
  | .nondict s => redactAndTruncate redact anon s
  | .dict d =>
    let name := match toolName with
      | some s => lowers s
      | none => []
    if name = sN "read" ∨ name = sN "edit" then anon.path (d.filePath.getD [])
    else if name = sN "write" then
      anon.path (d.filePath.getD []) ++ sN " (" ++ sN (toString (d.content.getD []).length)
        ++ sN " chars)"
    else if name = sN "bash" then redactAndTruncate redact anon (d.command.getD [])
    else if name = sN "grep" then
      sN "pattern=" ++ anon.text (redact (d.pattern.getD [])) ++ sN " path="
        ++ anon.path (d.path.getD [])
    else if name = sN "glob" then
      sN "pattern=" ++ anon.text (d.pattern.getD []) ++ sN " path="
        ++ anon.path (d.path.getD [])
    else if name = sN "task" then redactAndTruncate redact anon (d.prompt.getD [])
    else if name = sN "websearch" then d.query.getD []
    else if name = sN "webfetch" then d.url.getD []
    else redactAndTruncate redact anon d.pyRepr

/-- One content segment of a record's `message.content` sequence: a
`text`-typed block (its text defaulted to `""`), a `thinking`-typed block, a
`tool_use` block with raw name and input, or any other/non-mapping block. -/
inductive Block where
  | text : List Nat → Block
  | thinking : List Nat → Block
  | toolUse : Option (List Nat) → InputVal → Block
  | other : Block
deriving DecidableEq, Repr

/-- `message.content`: a plain string or a sequence of typed segments. -/
inductive ContentV where
  | str : List Nat → ContentV
  | blocks : List Block → ContentV
deriving DecidableEq, Repr

/-- `message.usage` token counters (`.get(key, 0)` modelled by `getD 0`). -/
structure UsageD where
  inputTokens : Option Nat
  cacheReadInputTokens : Option Nat
  outputTokens : Option Nat
deriving DecidableEq, Repr

/-- The `message` sub-object of a record. -/
structure MsgData where
  content : ContentV
  usage : Option UsageD
  model : Option (List Nat)
deriving DecidableEq, Repr

/-- `entry.get("message", {})`: the empty mapping (content defaults to ""). -/
def defMsgData : MsgData := ⟨.str [], none, none⟩

/-- The empty usage mapping. -/
def defUsage : UsageD := ⟨none, none, none⟩

/-- One decoded line-log record, restricted to the fields the parser reads. -/
structure Entry where
  etype : Option (List Nat)
  cwd : Option (List Nat)
  gitBranch : Option (List Nat)
  version : Option (List Nat)
  sessionId : Option (List Nat)
  timestamp : TsVal
  message : Option MsgData
deriving DecidableEq, Repr

/-- Python truthiness of an optional string (absent/empty are falsy). -/
def optTruthy (o : Option (List Nat)) : Bool :=
  match o with
  | some s => !s.isEmpty
  | none => false

/-- One exported tool invocation of the line-log parser. -/
structure ToolU where
  tool : Option (List Nat)
  input : List Nat
deriving DecidableEq, Repr

/-- One exported conversation message; `Option` fields model presence of the
corresponding dictionary key. -/
structure PMsg where
  role : List Nat
  content : Option (List Nat)
  thinking : Option (List Nat)
  toolUses : Option (List ToolU)
  timestamp : Option NormTs
deriving DecidableEq, Repr

/-- The session statistics counters. -/
structure Stats where
  userMessages : Nat
  assistantMessages : Nat
  toolUses : Nat
  inputTokens : Nat
  outputTokens : Nat
deriving DecidableEq, Repr

/-- The session metadata accumulated by the parser. -/
structure Meta where
  sessionId : List Nat
  cwd : Option (List Nat)
  gitBranch : Option (List Nat)
  claudeVersion : Option (List Nat)
  model : Option (List Nat)
  startTime : Option NormTs
  endTime : Option NormTs
deriving DecidableEq, Repr

/-- Parser state: messages, metadata and statistics. -/
structure PState where
  messages : List PMsg
  meta : Meta
  stats : Stats
deriving DecidableEq, Repr

/-- All counters start at zero. -/
def initStats : Stats := ⟨0, 0, 0, 0, 0⟩

/-- Initial metadata of `_parse_session_file` (session id from the filename). -/
def initMeta (sid : List Nat) : Meta := ⟨sid, none, none, none, none, none, none⟩

/-- Initial parser state. -/
def initPState (sid : List Nat) : PState := ⟨[], initMeta sid, initStats⟩

/-- `_extract_user_content`: the plain string content, or the newline-join of
the `text`-typed segments; dropped when empty or whitespace-only, otherwise
anonymized. -/
def extractUserContent (anon : TextAnon) (e : Entry) : Option (List Nat) :=
  let msgData := e.message.getD defMsgData
  let content :=
    match msgData.content with
    | .str s => s
    | .blocks bs =>
      List.intercalate (sN "\n")
        (bs.filterMap (fun b => match b with | .text s => some s | _ => none))
  if content = [] ∨ pyStrip content = [] then none
  else some (anon.text content)

/-- The body of the block loop of `_extract_assistant_content`: push a
stripped non-empty text segment, a stripped non-empty thinking segment (only
when requested), or a tool-use summary onto the respective accumulator. -/
def assistantFoldStep (redact : List Nat → List Nat) (anon : TextAnon)
    (includeThinking : Bool)
    (acc : List (List Nat) × List (List Nat) × List ToolU) (b : Block) :
    List (List Nat) × List (List Nat) × List ToolU :=
  match b with
  | .text s =>
    let st := pyStrip s
    if st ≠ [] then (acc.1 ++ [anon.text st], acc.2.1, acc.2.2) else acc
  | .thinking s =>
    if includeThinking then
      let st := pyStrip s
      if st ≠ [] then (acc.1, acc.2.1 ++ [anon.text st], acc.2.2) else acc
    else acc
  | .toolUse nm inp =>
    (acc.1, acc.2.1, acc.2.2 ++ [⟨nm, summarizeToolInput redact anon nm inp⟩])
  | .other => acc

/-- `_extract_assistant_content`: collect stripped non-empty text segments,
stripped non-empty thinking segments (only when requested) and tool-use
summaries in block order; return no message when all three are empty. -/
def extractAssistantContent (redact : List Nat → List Nat) (anon : TextAnon)
    (includeThinking : Bool) (e : Entry) : Option PMsg :=
  let msgData := e.message.getD defMsgData
  match msgData.content with
  | .str _ => none
  | .blocks bs =>
    let acc := bs.foldl (assistantFoldStep redact anon includeThinking) ([], [], [])
    if acc.1 = [] ∧ acc.2.2 = [] ∧ acc.2.1 = [] then none
    else some
      { role := sN "assistant"
        content := if acc.1 ≠ [] then some (List.intercalate (sN "\n\n") acc.1) else none
        thinking := if acc.2.1 ≠ [] then some (List.intercalate (sN "\n\n") acc.2.1) else none
        toolUses := if acc.2.2 ≠ [] then some acc.2.2 else none
        timestamp := none }

/-- `_process_entry`: first-sight capture of the environment context, then the
`user`/`assistant` dispatch appending messages and updating metadata and
statistics. -/
def processEntry (redact : List Nat → List Nat) (anon : TextAnon)
    (includeThinking : Bool) (st : PState) (e : Entry) : PState :=
  let st :=
    if st.meta.cwd = none ∧ optTruthy e.cwd then
      { st with meta := { st.meta with
          cwd := some (anon.path (e.cwd.getD []))
          gitBranch := e.gitBranch
          claudeVersion := e.version
          sessionId := e.sessionId.getD st.meta.sessionId } }
    else st
  let ts := normTs e.timestamp
  if e.etype = some (sN "user") then
    match extractUserContent anon e with
    | some content =>
      { st with
        messages := st.messages ++ [⟨sN "user", some content, none, none, ts⟩]
        stats := { st.stats with userMessages := st.stats.userMessages + 1 }
        meta := { st.meta with
          startTime := if st.meta.startTime = none then ts else st.meta.startTime
          endTime := ts } }
    | none => st
  else if e.etype = some (sN "assistant") then
    match extractAssistantContent redact anon includeThinking e with
    | some msg =>
      let usage := (e.message.getD defMsgData).usage.getD defUsage
      { st with
        messages := st.messages ++ [{ msg with timestamp := ts }]
        meta := { st.meta with
          model := if st.meta.model = none then (e.message.getD defMsgData).model
                   else st.meta.model
          endTime := ts }
        stats := { st.stats with
          inputTokens := st.stats.inputTokens
            + (usage.inputTokens.getD 0 + usage.cacheReadInputTokens.getD 0)
          outputTokens := st.stats.outputTokens + usage.outputTokens.getD 0
          toolUses := st.stats.toolUses + (msg.toolUses.getD []).length
          assistantMessages := st.stats.assistantMessages + 1 } }
    | none => st
  else st

/-- The per-line loop of `_parse_session_file` over the successfully decoded
records. -/
def processEntries (redact : List Nat → List Nat) (anon : TextAnon)
    (includeThinking : Bool) (st : PState) (es : List Entry) : PState :=
  es.foldl (processEntry redact anon includeThinking) st

/-! ## The AnonymizerWrapper around the external Scout tool -/

/-- `AnonymizerWrapper.text`: the Scout `AnonymizerTool` collaborator is the
parameter `tool`, yielding the optional `"result"` entry of its result
mapping (absent and `None` both `none`) or raising (`Except.error`). The body
mirrors `result.get("result") or content` under the `try` that falls back to
the original content. -/
def wrapText (tool : List Nat → Except (List Nat) (Option (List Nat)))
    (content : List Nat) : List Nat :=
  if content = [] then content
  else
    match tool content with
    | .error _ => content
    | .ok (some s) => if s = [] then content else s
    | .ok none => content

/-- `AnonymizerWrapper.path`: same structure as `wrapText` over the `path`
mode of the tool. -/
def wrapPath (tool : List Nat → Except (List Nat) (Option (List Nat)))
    (filePath : List Nat) : List Nat :=
  if filePath = [] then filePath
  else
    match tool filePath with
    | .error _ => filePath
    | .ok (some s) => if s = [] then filePath else s
    | .ok none => filePath

/-! ## The project-name heuristic (`_build_project_name`) -/

/-- Python `str.split(sep)` on a one-character separator (no maxsplit): always
returns at least one piece. -/
def splitC (sep : Nat) : List Nat → List (List Nat)
  | [] => [[]]
  | c :: rest =>
    if c = sep then [] :: splitC sep rest
    else
      match splitC sep rest with
      | [] => [[c]]
      | h :: t => (c :: h) :: t

/-- Python `str.strip(ch)` for a one-character argument. -/
def stripBoth (ch : Nat) (l : List Nat) : List Nat :=
  ((l.dropWhile (· = ch)).reverse.dropWhile (· = ch)).reverse

/-- `_build_project_name`: decode hyphens to separators, strip the leading
separator, split, and either keep the meaningful tail (skipping the
home-marker and one common container segment) or fall back to a placeholder. -/
def buildProjectName (dirName : List Nat) : List Nat :=
  let path := dirName.map (fun n => if n = 45 then 47 else n)
  let path := path.dropWhile (· = 47)
  let parts := splitC 47 path
  let commonDirs := [sN "Documents", sN "Downloads", sN "Desktop"]
  let p2in := ((parts.get? 2).getD []) ∈ commonDirs
  let meaningful :=
    if 2 ≤ parts.length ∧ parts.head? = some (sN "Users") then
      if 4 ≤ parts.length ∧ p2in then parts.drop 3
      else if 3 ≤ parts.length ∧ ¬p2in then parts.drop 2
      else []
    else if 2 ≤ parts.length ∧ parts.head? = some (sN "home") then
      if 2 < parts.length then parts.drop 2 else []
    else parts
  if meaningful ≠ [] then
    let segments := splitC 45 (dirName.dropWhile (· = 45))
    let joined := List.intercalate (sN "-") (segments.drop (parts.length - meaningful.length))
    if joined = [] then dirName else joined
  else
    let fallback := if stripBoth 45 dirName = [] then sN "unknown" else stripBoth 45 dirName
    if 2 ≤ parts.length
        ∧ (parts.head? = some (sN "Users") ∨ parts.head? = some (sN "home")) then
      if parts.length = 2 then sN "~home"
      else if parts.length = 3 ∧ p2in then sN "~" ++ (parts.get? 2).getD []
      else fallback
    else fallback

/-! ## The key-value session parser (`dataclaw/parsers/cursor.py`) -/

/-- First occurrence of a character in a list. -/
def idxOfC (ch : Nat) : List Nat → Option Nat
  | [] => none
  | c :: rest => if c = ch then some 0 else (idxOfC ch rest).map (· + 1)

/-- Python `str.find(ch, start)` (absence as `none` instead of `-1`). -/
def findFrom (ch start : Nat) (l : List Nat) : Option Nat :=
  (idxOfC ch (l.drop start)).map (· + start)

/-- Last occurrence of a character in a list. -/
def rIdxC (ch : Nat) : List Nat → Option Nat
  | [] => none
  | c :: rest =>
    match rIdxC ch rest with
    | some i => some (i + 1)
    | none => if c = ch then some 0 else none

/-- Python `str.rfind(ch, 0, stop)`. -/
def rfindBefore (ch stop : Nat) (l : List Nat) : Option Nat := rIdxC ch (l.take stop)

/-- Split at the first occurrence of a character, when present. -/
def breakAtC (ch : Nat) : List Nat → Option (List Nat × List Nat)
  | [] => none
  | c :: rest =>
    if c = ch then some ([], rest)
    else (breakAtC ch rest).map (fun pr => (c :: pr.1, pr.2))

/-- Python `str.split(sep, maxsplit)` on a one-character separator. -/
def splitCN (sep : Nat) : Nat → List Nat → List (List Nat)
  | 0, l => [l]
  | n + 1, l =>
    match breakAtC sep l with
    | none => [l]
    | some (pre, post) => pre :: splitCN sep n post

/-- The doubled-server scan of `_strip_mcp_prefix`: for each candidate server
length from 1 up to half the remainder, test the separators `"-"` and
`"-user-"` followed by the repeated server name and a hyphen. -/
def mcpLoopGo (rest : List Nat) : Nat → Nat → Option (List Nat)
  | _, 0 => none
  | len, fuel + 1 =>
    if rest.length / 2 < len then none
    else
      let server := rest.take len
      let after := rest.drop len
      let t1 := sN "-" ++ server ++ sN "-"
      if t1.isPrefixOf after then some (after.drop t1.length)
      else
        let t2 := sN "-user-" ++ server ++ sN "-"
        if t2.isPrefixOf after then some (after.drop t2.length)
        else mcpLoopGo rest (len + 1) fuel

/-- `_strip_mcp_prefix`: remove the provider namespace from a raw tool name
(`mcp_<ns>_<tool>` by a bounded split, `mcp-...` by locating the last hyphen
before the first underscore past the prefix, falling back to the
doubled-server scan); names not starting with `mcp` pass through. -/
def stripMcp (name : List Nat) : List Nat :=
  if name = [] ∨ ¬(sN "mcp").isPrefixOf name then name
  else if (sN "mcp_").isPrefixOf name then
    match splitCN 95 2 name with
    | _ :: _ :: x :: _ => x
    | _ => name
  else if (sN "mcp-").isPrefixOf name then
    let viaUnderscore :=
      match findFrom 95 4 name with
      | some upos =>
        (match rfindBefore 45 upos name with
         | some dpos => if 3 < dpos then some (name.drop (dpos + 1)) else none
         | none => none)
      | none => none
    match viaUnderscore with
    | some r => r
    | none =>
      match mcpLoopGo (name.drop 4) 1 ((name.drop 4).length / 2 + 1) with
      | some r => r
      | none => name
  else name

/-- Decoded JSON-like store values. -/
inductive JsonV where
  | null : JsonV
  | bool : Bool → JsonV
  | num : Int → JsonV
  | str : List Nat → JsonV
  | arr : List JsonV → JsonV
  | obj : List (List Nat × JsonV) → JsonV

/-- Mapping lookup on a decoded object. -/
def jLookup (kvs : List (List Nat × JsonV)) (k : List Nat) : Option JsonV :=
  (kvs.find? (fun p => decide (p.1 = k))).map (·.2)

/-- The recursion of `_try_parse_json` over a string value, the JSON decoder
(`json.loads`, a runtime collaborator) being the parameter `jl`; the fuel is
adequate because each successful decode of a string yields values whose
embedded strings are strictly shorter. -/
def tryParseJson (jl : List Nat → Option JsonV) : Nat → JsonV → JsonV
  | 0, v => v
  | fuel + 1, .str s =>
    (match jl s with
     | some v => tryParseJson jl fuel v
     | none => .str s)
  | _ + 1, v => v

/-- `_try_parse_json`: non-strings pass through, strings decode recursively
until no further decoding is possible. -/
def tryParseJ (jl : List Nat → Option JsonV) (v : JsonV) : JsonV :=
  match v with
  | .str s => tryParseJson jl (s.length + 1) (.str s)
  | v => v

mutual

/-- Python `repr()` of a decoded value (string-escape corner cases of `repr`
are not reproduced; no claim evaluates this rendering). -/
def pyReprJson : JsonV → List Nat
  | .null => sN "None"
  | .bool true => sN "True"
  | .bool false => sN "False"
  | .num n => sN (toString n)
  | .str s => [39] ++ s ++ [39]
  | .arr xs => [91] ++ pyReprList xs ++ [93]
  | .obj kvs => [123] ++ pyReprKVs kvs ++ [125]

/-- Comma-joined renderings of list elements. -/
def pyReprList : List JsonV → List Nat
  | [] => []
  | [x] => pyReprJson x
  | x :: xs => pyReprJson x ++ sN ", " ++ pyReprList xs

/-- Comma-joined renderings of mapping entries. -/
def pyReprKVs : List (List Nat × JsonV) → List Nat
  | [] => []
  | [(k, v)] => [39] ++ k ++ [39] ++ sN ": " ++ pyReprJson v
  | (k, v) :: rest => [39] ++ k ++ [39] ++ sN ": " ++ pyReprJson v ++ sN ", " ++ pyReprKVs rest

end

/-- Python `str()` of a decoded value (strings render as themselves, other
values as their `repr`). -/
def pyStrJson : JsonV → List Nat
  | .str s => s
  | v => pyReprJson v

/-- The fields of a turn-payload `toolFormerData` mapping that the parser
reads; `status` keeps its raw value (`none` models an absent key, defaulted to
`"unknown"`). -/
structure ToolFD where
  name : List Nat
  params : JsonV
  result : JsonV
  status : Option JsonV

/-- One turn payload ("bubble"), restricted to the fields the parser reads:
`text` is the raw optional text, `thinkingText` is `thinking.get("text") or ""`
when `thinking` is a mapping, `tokenCount` is the pair of raw counter values
when `tokenCount` is a mapping, and `toolFormerData` is present only when it
is a mapping. -/
structure CBubble where
  createdAt : TsVal
  workspaceUris : List (List Nat)
  modelName : Option (List Nat)
  btype : Option Int
  text : Option (List Nat)
  thinkingText : Option (List Nat)
  toolFormerData : Option ToolFD
  tokenCount : Option (Option JsonV × Option JsonV)

/-- The timestamp of a bubble: numbers go through `_normalize_timestamp`
(instantiated with the embedded one), strings stay as they are. -/
def cursorTs (v : TsVal) : Option NormTs :=
  match v with
  | .str s => some (.iso s)
  | .num n => normTs (.num n)
  | _ => none

/-- One exported tool invocation of the key-value parser (richer than the
line-log one: optional output mapping and status). -/
structure CToolU where
  tool : List Nat
  input : List Nat
  output : Option (List (List Nat × JsonV))
  status : Option (List Nat)

/-- One exported message of the key-value parser. -/
structure CMsg where
  role : List Nat
  content : Option (List Nat)
  thinking : Option (List Nat)
  toolUses : Option (List CToolU)
  timestamp : Option NormTs

/-- Metadata accumulated by the key-value parser. -/
structure CMeta where
  sessionId : List Nat
  cwd : Option (List Nat)
  gitBranch : Option (List Nat)
  model : Option (List Nat)
  startTime : Option NormTs
  endTime : Option NormTs
deriving DecidableEq, Repr

/-- Key-value parser state. -/
structure CState where
  messages : List CMsg
  meta : CMeta
  stats : Stats

/-- Initial metadata for a composer id. -/
def initCMeta (sid : List Nat) : CMeta := ⟨sid, none, none, none, none, none⟩

/-- Modelled from the spec: the `_update_time_bounds` collaborator passed into
`parse_session` (its definition is not among these sources): "`start_time` set
on first message, `end_time` updated on every subsequent message". -/
def updateTimeBounds (md : CMeta) (ts : Option NormTs) : CMeta :=
  { md with
    startTime := if md.startTime = none then ts else md.startTime
    endTime := ts }

/-- Modelled from the spec: the `_safe_int` collaborator passed into
`parse_session` (its definition is not among these sources): "best-effort
numeric coercion (non-numeric or absent values contribute zero, never
raise)". -/
def safeInt (v : Option JsonV) : Nat :=
  match v with
  | some (.num n) => n.toNat
  | _ => 0

/-- The `params` resolution for a tool turn: recursive decode, then unwrap of
a single nested tool-call descriptor (`params["tools"]` a one-element list
whose element's `parameters` decode to a mapping; the source assumes a mapping
descriptor there). -/
def resolveParams (jl : List Nat → Option JsonV) (params : JsonV) : JsonV :=
  let paramsRaw := tryParseJ jl params
  match paramsRaw with
  | .obj kvs =>
    (match jLookup kvs (sN "tools") with
     | some (.arr [JsonV.obj tkvs]) =>
       (match tryParseJ jl ((jLookup tkvs (sN "parameters")).getD (.str [123, 125])) with
        | .obj ikvs => JsonV.obj ikvs
        | _ => .obj kvs)
     | _ => .obj kvs)
  | v => v

/-- The `result` resolution for a tool turn: text results are redacted and
anonymized, mapping results have their string values anonymized in place,
other non-absent results are stringified and anonymized. -/
def resolveOutput (anon : TextAnon) (redact : List Nat → List Nat)
    (jl : List Nat → Option JsonV) (result : JsonV) : List (List Nat × JsonV) :=
  match tryParseJ jl result with
  | .str s =>
    if pyStrip s ≠ [] then [(sN "text", .str (anon.text (redact s)))]
    else [(sN "text", .str (anon.text s))]
  | .obj kvs =>
    kvs.map (fun p => (p.1, match p.2 with | .str s => JsonV.str (anon.text s) | v => v))
  | .null => []
  | v => [(sN "text", .str (anon.text (pyStrJson v)))]

/-- The `status` resolution: default `"unknown"`, one level of unwrapping for
a mapping, kept only when a string. -/
def resolveStatus (status : Option JsonV) : Option (List Nat) :=
  let sv := status.getD (.str (sN "unknown"))
  let sv := match sv with
    | .obj kvs => (jLookup kvs (sN "status")).getD (.str (sN "unknown"))
    | v => v
  match sv with
  | .str s => some s
  | _ => none

/-- Token-count accumulation at the end of a non-skipped loop iteration. -/
def cursorTokenAcc (b : CBubble) (st : CState) : CState :=
  match b.tokenCount with
  | some (ti, to_) =>
    { st with stats := { st.stats with
        inputTokens := st.stats.inputTokens + safeInt ti
        outputTokens := st.stats.outputTokens + safeInt to_ } }
  | none => st

/-- The first-sight capture of the working directory at the top of each loop
iteration of `parse_session`. -/
def cursorCaptureCwd (anon : TextAnon) (st : CState) (b : CBubble) : CState :=
  if st.meta.cwd = none then
    match b.workspaceUris.head? with
    | some uri =>
      if uri ≠ [] then
        let uri := if (sN "file://").isPrefixOf uri then uri.drop 7 else uri
        { st with meta := { st.meta with cwd := some (anon.path uri) } }
      else st
    | none => st
  else st

/-- The first-sight captures of working directory and model name at the top
of each loop iteration of `parse_session` (the source rebinds its running
state; the working-directory capture is applied first). -/
def cursorCapture (anon : TextAnon) (st : CState) (b : CBubble) : CState :=
  match b.modelName with
  | some mn =>
    if (cursorCaptureCwd anon st b).meta.model = none ∧ pyStrip mn ≠ [] then
      { cursorCaptureCwd anon st b with
        meta := { (cursorCaptureCwd anon st b).meta with model := some mn } }
    else cursorCaptureCwd anon st b
  | none => cursorCaptureCwd anon st b

/-- The stripped thinking text of a plain (tool-free) assistant turn:
`(thinking.get("text") or "").strip()` when thinking inclusion is requested
and `thinking` is a mapping, else empty. -/
def cursorThinkText (includeThinking : Bool) (b : CBubble) : List Nat :=
  if includeThinking then
    match b.thinkingText with
    | some t => pyStrip t
    | none => []
  else []

/-- The type dispatch of one loop iteration of `parse_session`, applied after
the first-sight captures; the `continue` statements of the source skip the
token-count accumulation, which is reached on every other path.
`_parse_tool_input` is the parameter `parseToolInput`, as in the source's own
signature. -/
def cursorDispatch (anon : TextAnon) (redact : List Nat → List Nat)
    (jl : List Nat → Option JsonV) (includeThinking : Bool)
    (parseToolInput : List Nat → JsonV → List Nat)
    (b : CBubble) (ts : Option NormTs) (st : CState) : CState :=
  if b.btype = some 1 then
      let text := pyStrip (b.text.getD [])
      if text = [] then st
      else
        cursorTokenAcc b
          { st with
            messages := st.messages
              ++ [⟨sN "user", some (anon.text (redact text)), none, none, ts⟩]
            stats := { st.stats with userMessages := st.stats.userMessages + 1 }
            meta := updateTimeBounds st.meta ts }
    else if b.btype = some 2 then
      let toolNameRaw := match b.toolFormerData with | some tfd => tfd.name | none => []
      match b.toolFormerData with
      | some tfd =>
        if toolNameRaw ≠ [] then
          let toolName := stripMcp toolNameRaw
          let params := resolveParams jl tfd.params
          let toolInput := parseToolInput toolName
            (match params with | .obj kvs => JsonV.obj kvs | _ => JsonV.obj [])
          let toolOutput := resolveOutput anon redact jl tfd.result
          let toolEntry : CToolU :=
            { tool := toolName
              input := toolInput
              output := if toolOutput.isEmpty then none else some toolOutput
              status := resolveStatus tfd.status }
          let think :=
            if includeThinking then
              match b.thinkingText with
              | some t => let tt := pyStrip t; if tt ≠ [] then some (anon.text tt) else none
              | none => none
            else none
          let text := pyStrip (b.text.getD [])
          let msg : CMsg :=
            { role := sN "assistant"
              content := if text ≠ [] then some (anon.text (redact text)) else none
              thinking := think
              toolUses := some [toolEntry]
              timestamp := ts }
          cursorTokenAcc b
            { st with
              messages := st.messages ++ [msg]
              stats := { st.stats with
                assistantMessages := st.stats.assistantMessages + 1
                toolUses := st.stats.toolUses + 1 }
              meta := updateTimeBounds st.meta ts }
        else
          let text := pyStrip (b.text.getD [])
          let think := cursorThinkText includeThinking b
          if text = [] ∧ think = [] then st
          else
            let msg : CMsg :=
              { role := sN "assistant"
                content := if text ≠ [] then some (anon.text (redact text)) else none
                thinking := if think ≠ [] then some (anon.text think) else none
                toolUses := none
                timestamp := ts }
            cursorTokenAcc b
              { st with
                messages := st.messages ++ [msg]
                stats := { st.stats with
                  assistantMessages := st.stats.assistantMessages + 1 }
                meta := updateTimeBounds st.meta ts }
      | none =>
        let text := pyStrip (b.text.getD [])
        let think := cursorThinkText includeThinking b
        if text = [] ∧ think = [] then st
        else
          let msg : CMsg :=
            { role := sN "assistant"
              content := if text ≠ [] then some (anon.text (redact text)) else none
              thinking := if think ≠ [] then some (anon.text think) else none
              toolUses := none
              timestamp := ts }
          cursorTokenAcc b
            { st with
              messages := st.messages ++ [msg]
              stats := { st.stats with
                assistantMessages := st.stats.assistantMessages + 1 }
              meta := updateTimeBounds st.meta ts }
    else cursorTokenAcc b st

/-- One iteration of the `parse_session` walk over the header's ordered
references: `none` models a reference whose payload is absent from the bulk
fetch or falsy (skipped). -/
def cursorStep (anon : TextAnon) (redact : List Nat → List Nat)
    (jl : List Nat → Option JsonV) (includeThinking : Bool)
    (parseToolInput : List Nat → JsonV → List Nat)
    (st : CState) (ob : Option CBubble) : CState :=
  match ob with
  | none => st
  | some b =>
    cursorDispatch anon redact jl includeThinking parseToolInput b
      (cursorTs b.createdAt) (cursorCapture anon st b)

/-- The model sentinel applied after the walk: this source never reports "no
model" as absent. -/
def cursorFinalize (st : CState) : CState :=
  if st.meta.model = none then
    { st with meta := { st.meta with model := some (sN "cursor-unknown") } }
  else st

/-- The `parse_session` walk over the header-resolved turn payloads (stats
initialized by the `_make_stats` collaborator to the zeroed counters). -/
def parseCursorBubbles (anon : TextAnon) (redact : List Nat → List Nat)
    (jl : List Nat → Option JsonV) (includeThinking : Bool)
    (parseToolInput : List Nat → JsonV → List Nat)
    (sid : List Nat) (bubbles : List (Option CBubble)) : CState :=
  cursorFinalize
    (bubbles.foldl (cursorStep anon redact jl includeThinking parseToolInput)
      ⟨[], initCMeta sid, initStats⟩)

/-! ## Specification-side predicates used by the claim statements -/

/-- The character the lookbehind sees at position `i` of `l` when the
character before `l` itself is `p`. -/
def ctxAt (p : Option Nat) (l : List Nat) (i : Nat) : Option Nat :=
  if i = 0 then p else l.get? (i - 1)

/-- A whole-token (bare-word) case-insensitive occurrence of `u` at the head
of `l`, the character to the left being `p`: exactly the match condition of
the username pattern. -/
def bareHereB (u : List Nat) (p : Option Nat) (l : List Nat) : Bool :=
  prevOk p && ciLead u l && aheadOk u l

/-- A bare-word occurrence of `u` at position `i` of `l` (left context `p`
before the string). -/
def bareAtB (u : List Nat) (p : Option Nat) (l : List Nat) (i : Nat) : Bool :=
  bareHereB u (ctxAt p l i) (l.drop i)

/-- `h` contains no bare-word occurrence of `u`. -/
def bareFree (u h : List Nat) : Prop := ∀ j, bareAtB u none h j = false

/-- Recursive form of "no bare-word occurrence anywhere", convenient for
induction: no occurrence at the head, and none in the tail. -/
def noBare (u : List Nat) : Option Nat → List Nat → Prop
  | _, [] => True
  | p, c :: r => bareHereB u p (c :: r) = false ∧ noBare u (some c) r

/-- Position of the first bare-word occurrence of `u` in `l` (left context `p`
before the string), the spec's notion of the occurrence the substitution acts
on next. -/
def specFirstBare (u : List Nat) (p : Option Nat) (l : List Nat) : Option Nat :=
  (List.range l.length).find? (fun j => bareAtB u p l j)

/-- Following the spec's words for the username-length boundary: scanning left
to right, replace every case-insensitive whole-token (bare-word) occurrence of
the username by its hash, resuming right after each occurrence with the
original character before the resume point as left context. Fuel decreases per
replacement; `specReplaceBare` below supplies enough. -/
def specReplaceBareF (u hsh : List Nat) : Nat → Option Nat → List Nat → List Nat
  | 0, _, l => l
  | f + 1, p, l =>
    match specFirstBare u p l with
    | none => l
    | some i =>
      l.take i ++ hsh
        ++ specReplaceBareF u hsh f (l.get? (i + u.length - 1)) (l.drop (i + u.length))

/-- Replacement of every bare-word occurrence of the username by its hash, as
the spec describes it. -/
def specReplaceBare (u hsh l : List Nat) : List Nat :=
  specReplaceBareF u hsh l.length none l

/-- The raw (pre-anonymization) user text of an entry, as
`_extract_user_content` assembles it. -/
def rawUserContent (e : Entry) : List Nat :=
  match (e.message.getD defMsgData).content with
  | .str s => s
  | .blocks bs =>
    List.intercalate (sN "\n")
      (bs.filterMap (fun b => match b with | .text s => some s | _ => none))

/-- Whether a `user` record yields a message (its raw text is neither empty
nor whitespace-only); independent of the anonymizer. -/
def userAppends (e : Entry) : Bool :=
  !(decide (rawUserContent e = []) || decide (pyStrip (rawUserContent e) = []))

/-- The content blocks of an entry, when its content is a segment list. -/
def blocksOf (e : Entry) : Option (List Block) :=
  match (e.message.getD defMsgData).content with
  | .blocks bs => some bs
  | _ => none

/-- Presence of a text segment that survives stripping. -/
def hasTextSeg (bs : List Block) : Bool :=
  bs.any (fun b => match b with | .text s => !decide (pyStrip s = []) | _ => false)

/-- Presence of a thinking segment that survives stripping. -/
def hasThinkSeg (bs : List Block) : Bool :=
  bs.any (fun b => match b with | .thinking s => !decide (pyStrip s = []) | _ => false)

/-- Presence of a tool-use segment. -/
def hasToolSeg (bs : List Block) : Bool :=
  bs.any (fun b => match b with | .toolUse _ _ => true | _ => false)

/-- Whether an `assistant` record yields a message; independent of the
anonymizer and redactor. -/
def assistantAppends (includeThinking : Bool) (e : Entry) : Bool :=
  match blocksOf e with
  | none => false
  | some bs => hasTextSeg bs || (includeThinking && hasThinkSeg bs) || hasToolSeg bs

/-- Whether a record appends a message at all. -/
def entryAppends (includeThinking : Bool) (e : Entry) : Bool :=
  if e.etype = some (sN "user") then userAppends e
  else if e.etype = some (sN "assistant") then assistantAppends includeThinking e
  else false

/-- The anonymized text parts an assistant record contributes, in order. -/
def textsOfBlocks (anon : TextAnon) (bs : List Block) : List (List Nat) :=
  bs.filterMap (fun b =>
    match b with
    | .text s => if pyStrip s ≠ [] then some (anon.text (pyStrip s)) else none
    | _ => none)

/-- The anonymized thinking parts an assistant record contributes. -/
def thinksOfBlocks (anon : TextAnon) (includeThinking : Bool) (bs : List Block) :
    List (List Nat) :=
  bs.filterMap (fun b =>
    match b with
    | .thinking s =>
      if includeThinking then
        (if pyStrip s ≠ [] then some (anon.text (pyStrip s)) else none)
      else none
    | _ => none)

/-- The tool-use summaries an assistant record contributes. -/
def toolsOfBlocks (redact : List Nat → List Nat) (anon : TextAnon) (bs : List Block) :
    List ToolU :=
  bs.filterMap (fun b =>
    match b with
    | .toolUse nm inp => some ⟨nm, summarizeToolInput redact anon nm inp⟩
    | _ => none)

/-- Reported input tokens of a record (`usage.get("input_tokens", 0)`). -/
def usageIn (e : Entry) : Nat :=
  (((e.message.getD defMsgData).usage.getD defUsage).inputTokens).getD 0

/-- Reported cache-read input tokens of a record. -/
def usageCache (e : Entry) : Nat :=
  (((e.message.getD defMsgData).usage.getD defUsage).cacheReadInputTokens).getD 0

/-- Reported output tokens of a record. -/
def usageOut (e : Entry) : Nat :=
  (((e.message.getD defMsgData).usage.getD defUsage).outputTokens).getD 0

/-- First-of-two options (strict in neither), mirroring "set only while still
unset". -/
def orO (a b : Option NormTs) : Option NormTs :=
  match a with
  | some x => some x
  | none => b

/-- The timestamps of the user records that append a message, in order. -/
def userTsList (es : List Entry) : List NormTs :=
  (es.filter (fun e => decide (e.etype = some (sN "user")) && userAppends e)).filterMap
    (fun e => normTs e.timestamp)

/-- A line-log message carries at least one of content, thinking or (a
non-empty list of) tool uses. -/
def pmsgNonEmpty (m : PMsg) : Prop :=
  m.content.isSome ∨ m.thinking.isSome ∨ ∃ tl, m.toolUses = some tl ∧ tl ≠ []

/-- A key-value-parser message carries at least one of content, thinking or
(a non-empty list of) tool uses. -/
def cmsgNonEmpty (m : CMsg) : Prop :=
  m.content.isSome ∨ m.thinking.isSome ∨ ∃ tl, m.toolUses = some tl ∧ tl ≠ []

/-! ## Concrete fixtures used by witnesses and counterexamples -/

/-- An anonymizer built from the repository's own engine for user `alice`. -/
def cexAnon : TextAnon :=
  ⟨fun t => anonymizeText t (sN "alice") (sN "user_ab12cd34") [],
   fun t => anonymizeText t (sN "alice") (sN "user_ab12cd34") []⟩

/-- A 302-character command whose trailing `alice` straddles the truncation
boundary. -/
def cexCmd : List Nat := List.replicate 296 45 ++ sN " alice"

/-- A bash tool input carrying `cexCmd`. -/
def cexDict : ToolDict := ⟨none, none, none, none, some cexCmd, none, none, none, []⟩

/-- An anonymizer state with primary username `alice` and the alternate
identity `bobby`. -/
def cexState : AnonState :=
  mkAnonState (sN "/Users/alice") (sN "alice") (fun _ => sN "user_9f8e7d6c") [sN "bobby"]

/-- An assistant record with a text segment and a timestamp, used to show the
first appended message can be assistant-typed. -/
def eAsstFirst : Entry :=
  ⟨some (sN "assistant"), none, none, none, none, .str (sN "2024-01-01T00:00:00Z"),
   some ⟨.blocks [.text (sN "hi there")], none, none⟩⟩

/-- An assistant record reporting token usage but carrying no segments. -/
def eTokenNoMsg : Entry :=
  ⟨some (sN "assistant"), none, none, none, none, .str (sN "2024-01-01T00:00:05Z"),
   some ⟨.blocks [], some ⟨some 5, some 7, some 3⟩, none⟩⟩

/-- A user record with plain text content. -/
def eUserW : Entry :=
  ⟨some (sN "user"), none, none, none, none, .str (sN "2024-01-01T00:00:01Z"),
   some ⟨.str (sN "hello"), none, none⟩⟩

/-- A user-typed bubble with text, for the key-value parser. -/
def bUserW : CBubble :=
  ⟨.str (sN "2024-02-02T00:00:00Z"), [], none, some 1, some (sN "hola"), none, none, none⟩

/-- An anonymizer state with primary username `alice` and no extras. -/
def stNoExtraW : AnonState :=
  mkAnonState (sN "/Users/alice") (sN "alice") (fun _ => sN "user_ab12cd34") []

/-! # Theorems settling the claims -/

/-- C9: the project-name heuristic maps `-Users-alice-Documents-myapp` to
`myapp`, `-home-bob-project` to `project`, `standalone` to `standalone`, and
`-Users-alice` (a home-marker with no meaningful tail) to the home-marker
placeholder `~home`, not to the raw identifier. -/
theorem claim9_project_name_heuristic :
    buildProjectName (sN "-Users-alice-Documents-myapp") = sN "myapp"
    ∧ buildProjectName (sN "-home-bob-project") = sN "project"
    ∧ buildProjectName (sN "standalone") = sN "standalone"
    ∧ buildProjectName (sN "-Users-alice") = sN "~home" := by
  refine ⟨?_, ?_, ?_, ?_⟩ <;> decide

/-- C8: whenever the anonymization collaborator raises during a text or path
call, the wrapper returns the original input unchanged; the exception is never
propagated. -/
theorem claim8_collaborator_failure_fallback
    (tool : List Nat → Except (List Nat) (Option (List Nat)))
    (content filePath err1 err2 : List Nat)
    (h1 : tool content = .error err1) (h2 : tool filePath = .error err2) :
    wrapText tool content = content ∧ wrapPath tool filePath = filePath := by
  constructor
  · unfold wrapText
    by_cases hc : content = []
    · simp [hc]
    · simp [hc, h1]
  · unfold wrapPath
    by_cases hp : filePath = []
    · simp [hp]
    · simp [hp, h2]

/-- Witness for C8 at a concrete always-throwing tool. -/
theorem claim8_witness :
    wrapText (fun _ => .error (sN "boom")) (sN "abc") = sN "abc"
    ∧ wrapPath (fun _ => .error (sN "boom")) (sN "/p/q") = sN "/p/q" :=
  claim8_collaborator_failure_fallback (fun _ => .error (sN "boom"))
    (sN "abc") (sN "/p/q") (sN "boom") (sN "boom") rfl rfl

/-- C10 (implicit): for non-empty input, the wrapper's text and path
operations return the original input whenever the tool's result mapping has
an absent, `None`, or empty `"result"` entry — a run that anonymizes down to
the empty string is discarded in favour of the raw original. -/
theorem claim10_wrapper_empty_result_fallback
    (tool : List Nat → Except (List Nat) (Option (List Nat)))
    (content filePath : List Nat)
    (hc : content ≠ []) (hp : filePath ≠ [])
    (h1 : tool content = .ok none ∨ tool content = .ok (some []))
    (h2 : tool filePath = .ok none ∨ tool filePath = .ok (some [])) :
    wrapText tool content = content ∧ wrapPath tool filePath = filePath := by
  constructor
  · unfold wrapText
    rcases h1 with h | h <;> simp [hc, h]
  · unfold wrapPath
    rcases h2 with h | h <;> simp [hp, h]

/-- Witness for C10: a tool returning an empty-string result on one input and
no result entry on another. -/
theorem claim10_witness :
    wrapText (fun s => Except.ok (if s = sN "abc" then some [] else none)) (sN "abc") = sN "abc"
    ∧ wrapPath (fun s => Except.ok (if s = sN "abc" then some [] else none)) (sN "/p/q")
        = sN "/p/q" :=
  claim10_wrapper_empty_result_fallback _ (sN "abc") (sN "/p/q")
    (by decide) (by decide) (Or.inr (congrArg Except.ok (by decide)))
    (Or.inl (congrArg Except.ok (by decide)))

/-- C3 amended: the fast paths of `anonymize_text` hold — empty input, empty
primary username, or a primary username that does not occur case-insensitively
all return the input unchanged — and `Anonymizer.text` preserves them only
when no alternate identities are configured (or none match): the
alternate-identity replacement step itself runs unconditionally. -/
theorem claim3_amended_fast_paths :
    (∀ u hsh home, anonymizeText [] u hsh home = [])
    ∧ (∀ t hsh home, anonymizeText t [] hsh home = t)
    ∧ (∀ t u hsh home, ciSub u t = false → anonymizeText t u hsh home = t)
    ∧ (∀ st t, st.extraOrder = [] → ciSub st.username t = false → anonStateText st t = t) := by
  have h3 : ∀ t u hsh home, ciSub u t = false → anonymizeText t u hsh home = t := by
    intro t u hsh home h
    unfold anonymizeText
    by_cases ht : t = [] ∨ u = []
    · simp [ht]
    · simp [ht, h]
  refine ⟨?_, ?_, h3, ?_⟩
  · intro u hsh home
    unfold anonymizeText
    simp
  · intro t hsh home
    unfold anonymizeText
    simp
  · intro st t hord h
    unfold anonStateText
    simp [hord, h3 t st.username st.usernameHash st.home h]

/-- C3 counterexample: with the alternate identity `bobby` configured, an
input in which the primary username `alice` does not occur is still changed
by `Anonymizer.text`, contradicting the claim that the fast-path guarantee
extends to the alternate-identity replacement step. -/
theorem claim3_counterexample :
    ciSub cexState.username (sN "hi bobby") = false
    ∧ anonStateText cexState (sN "hi bobby") ≠ sN "hi bobby" := by
  exact ⟨by decide, by decide⟩

/-- Witness for C3 (amended) at a state without extras and an input free of
the primary username. -/
theorem claim3_witness :
    ciSub (sN "alice") (sN "good morning") = false
    ∧ anonymizeText (sN "good morning") (sN "alice") (sN "user_ab12cd34") [] = sN "good morning"
    ∧ anonStateText stNoExtraW (sN "good morning") = sN "good morning" :=
  ⟨by decide,
   claim3_amended_fast_paths.2.2.1 (sN "good morning") (sN "alice") (sN "user_ab12cd34") []
     (by decide),
   claim3_amended_fast_paths.2.2.2 stNoExtraW (sN "good morning") (by decide) (by decide)⟩

/-- C1 amended: on the redact-and-truncate path (bash commands, task prompts,
and the default branch of the dispatch) the summary applies secret redaction
first, then truncation to the 300-character maximum, then anonymization —
truncation never precedes redaction, but it does precede anonymization. -/
theorem claim1_amended_summary_order (redact : List Nat → List Nat) (anon : TextAnon)
    (d : ToolDict) (s : List Nat) :
    summarizeToolInput redact anon (some (sN "bash")) (.dict d)
      = anon.text ((redact (d.command.getD [])).take maxToolInputLength)
    ∧ summarizeToolInput redact anon (some (sN "task")) (.dict d)
      = anon.text ((redact (d.prompt.getD [])).take maxToolInputLength)
    ∧ summarizeToolInput redact anon (some (sN "mytool")) (.dict d)
      = anon.text ((redact d.pyRepr).take maxToolInputLength)
    ∧ summarizeToolInput redact anon none (.nondict s)
      = anon.text ((redact s).take maxToolInputLength) := by
  refine ⟨?_, ?_, ?_, ?_⟩ <;> rfl

set_option maxRecDepth 10000 in
/-- C1 counterexample: with the repository's own anonymization engine (user
`alice`) and a redactor that is the identity on this secret-free command, the
bash summary of a 302-character command differs from the
redact-then-anonymize-then-truncate composition the claim prescribes: the
code truncates before anonymizing. -/
theorem claim1_counterexample :
    summarizeToolInput (fun t => t) cexAnon (some (sN "bash")) (.dict cexDict)
      ≠ (cexAnon.text cexCmd).take maxToolInputLength := by decide

/-- The assistant fold accumulates exactly the three filtered block lists. -/
theorem auxAssistantFoldEq (redact : List Nat → List Nat) (anon : TextAnon) (inc : Bool)
    (bs : List Block) :
    ∀ acc, bs.foldl (assistantFoldStep redact anon inc) acc
      = (acc.1 ++ textsOfBlocks anon bs, acc.2.1 ++ thinksOfBlocks anon inc bs,
         acc.2.2 ++ toolsOfBlocks redact anon bs) := by
  induction bs with
  | nil => intro acc; simp [textsOfBlocks, thinksOfBlocks, toolsOfBlocks]
  | cons b bs ih =>
    intro acc
    cases b with
    | text s =>
      by_cases hs : pyStrip s = [] <;>
        simp [assistantFoldStep, hs, textsOfBlocks, thinksOfBlocks, toolsOfBlocks,
          List.filterMap_cons, ih]
    | thinking s =>
      cases inc <;> by_cases hs : pyStrip s = [] <;>
        simp [assistantFoldStep, hs, textsOfBlocks, thinksOfBlocks, toolsOfBlocks,
          List.filterMap_cons, ih]
    | toolUse nm inp =>
      simp [assistantFoldStep, textsOfBlocks, thinksOfBlocks, toolsOfBlocks,
        List.filterMap_cons, ih]
    | other =>
      simp [assistantFoldStep, textsOfBlocks, thinksOfBlocks, toolsOfBlocks,
        List.filterMap_cons, ih]

/-- Characterization of `_extract_assistant_content` in terms of the filtered
block lists. -/
theorem auxExtractAssistantChar (redact : List Nat → List Nat) (anon : TextAnon)
    (inc : Bool) (e : Entry) :
    extractAssistantContent redact anon inc e
      = match blocksOf e with
        | none => none
        | some bs =>
          if textsOfBlocks anon bs = [] ∧ toolsOfBlocks redact anon bs = []
              ∧ thinksOfBlocks anon inc bs = [] then none
          else some
            ⟨sN "assistant",
             if textsOfBlocks anon bs ≠ [] then
               some (List.intercalate (sN "\n\n") (textsOfBlocks anon bs)) else none,
             if thinksOfBlocks anon inc bs ≠ [] then
               some (List.intercalate (sN "\n\n") (thinksOfBlocks anon inc bs)) else none,
             if toolsOfBlocks redact anon bs ≠ [] then some (toolsOfBlocks redact anon bs)
             else none,
             none⟩ := by
  cases hc : (e.message.getD defMsgData).content with
  | str s => simp [extractAssistantContent, blocksOf, hc]
  | blocks bs => simp [extractAssistantContent, blocksOf, hc, auxAssistantFoldEq]

/-- The text accumulator is empty exactly when no text segment survives. -/
theorem auxTextsNil (anon : TextAnon) (bs : List Block) :
    textsOfBlocks anon bs = [] ↔ hasTextSeg bs = false := by
  induction bs with
  | nil => simp [textsOfBlocks, hasTextSeg]
  | cons b bs ih =>
    cases b with
    | text s =>
      by_cases hs : pyStrip s = [] <;>
        simp [textsOfBlocks, hasTextSeg, List.filterMap_cons, hs] <;>
        simpa [textsOfBlocks, hasTextSeg] using ih
    | thinking s =>
      simp [textsOfBlocks, hasTextSeg, List.filterMap_cons] at *
      simpa [textsOfBlocks, hasTextSeg] using ih
    | toolUse nm inp =>
      simp [textsOfBlocks, hasTextSeg, List.filterMap_cons] at *
      simpa [textsOfBlocks, hasTextSeg] using ih
    | other =>
      simp [textsOfBlocks, hasTextSeg, List.filterMap_cons] at *
      simpa [textsOfBlocks, hasTextSeg] using ih

/-- The thinking accumulator is empty exactly when thinking is not requested
or no thinking segment survives. -/
theorem auxThinksNil (anon : TextAnon) (inc : Bool) (bs : List Block) :
    thinksOfBlocks anon inc bs = [] ↔ (inc && hasThinkSeg bs) = false := by
  induction bs with
  | nil => simp [thinksOfBlocks, hasThinkSeg]
  | cons b bs ih =>
    cases b with
    | text s =>
      simp [thinksOfBlocks, hasThinkSeg, List.filterMap_cons] at *
      simpa [thinksOfBlocks, hasThinkSeg] using ih
    | thinking s =>
      cases inc <;> by_cases hs : pyStrip s = [] <;>
        simp [thinksOfBlocks, hasThinkSeg, List.filterMap_cons, hs] <;>
        simpa [thinksOfBlocks, hasThinkSeg] using ih
    | toolUse nm inp =>
      simp [thinksOfBlocks, hasThinkSeg, List.filterMap_cons] at *
      simpa [thinksOfBlocks, hasThinkSeg] using ih
    | other =>
      simp [thinksOfBlocks, hasThinkSeg, List.filterMap_cons] at *
      simpa [thinksOfBlocks, hasThinkSeg] using ih

/-- The tool accumulator is empty exactly when there is no tool-use segment. -/
theorem auxToolsNil (redact : List Nat → List Nat) (anon : TextAnon) (bs : List Block) :
    toolsOfBlocks redact anon bs = [] ↔ hasToolSeg bs = false := by
  induction bs with
  | nil => simp [toolsOfBlocks, hasToolSeg]
  | cons b bs ih =>
    cases b with
    | text s =>
      simp [toolsOfBlocks, hasToolSeg, List.filterMap_cons] at *
      simpa [toolsOfBlocks, hasToolSeg] using ih
    | thinking s =>
      simp [toolsOfBlocks, hasToolSeg, List.filterMap_cons] at *
      simpa [toolsOfBlocks, hasToolSeg] using ih
    | toolUse nm inp => simp [toolsOfBlocks, hasToolSeg, List.filterMap_cons]
    | other =>
      simp [toolsOfBlocks, hasToolSeg, List.filterMap_cons] at *
      simpa [toolsOfBlocks, hasToolSeg] using ih

/-- An assistant record contributes a message exactly when `assistantAppends`
holds; the condition is independent of the anonymizer and redactor. -/
theorem auxExtractAssistantIsSome (redact : List Nat → List Nat) (anon : TextAnon)
    (inc : Bool) (e : Entry) :
    (extractAssistantContent redact anon inc e).isSome = assistantAppends inc e := by
  rw [auxExtractAssistantChar]
  unfold assistantAppends
  cases hb : blocksOf e with
  | none => rfl
  | some bs =>
    by_cases h : textsOfBlocks anon bs = [] ∧ toolsOfBlocks redact anon bs = []
        ∧ thinksOfBlocks anon inc bs = []
    · have h1 := (auxTextsNil anon bs).mp h.1
      have h2 := (auxToolsNil redact anon bs).mp h.2.1
      have h3 := (auxThinksNil anon inc bs).mp h.2.2
      simp [h, h1, h2, h3]
    · simp only [h, if_false]
      rw [not_and_or, not_and_or] at h
      rcases h with h1 | h2 | h3
      · rw [auxTextsNil] at h1
        simp at h1
        simp [h1]
      · rw [auxToolsNil] at h2
        simp at h2
        simp [h2]
      · rw [auxThinksNil] at h3
        simp at h3
        simp [h3]

/-- C5 amended: token-usage counters accumulate only for assistant records
that contribute a message — `input_tokens` grows by the record's reported
input tokens plus its reported cache-read input tokens and `output_tokens` by
its reported output tokens — while an assistant record that contributes no
message leaves the statistics unchanged. -/
theorem claim5_amended_token_accumulation (redact : List Nat → List Nat) (anon : TextAnon)
    (inc : Bool) (st : PState) (e : Entry)
    (h : e.etype = some (sN "assistant")) :
    (assistantAppends inc e = true →
      (processEntry redact anon inc st e).stats.inputTokens
          = st.stats.inputTokens + (usageIn e + usageCache e)
        ∧ (processEntry redact anon inc st e).stats.outputTokens
          = st.stats.outputTokens + usageOut e)
    ∧ (assistantAppends inc e = false →
        (processEntry redact anon inc st e).stats = st.stats) := by
  have hne : ¬(some (sN "assistant") = some (sN "user")) := by decide
  cases hE : extractAssistantContent redact anon inc e with
  | none =>
    have happ : assistantAppends inc e = false := by
      rw [← auxExtractAssistantIsSome redact anon inc e, hE]; rfl
    constructor
    · intro hT
      rw [happ] at hT
      exact absurd hT (by simp)
    · intro _
      unfold processEntry
      simp only [h, hne, if_false, if_neg hne, hE]
      simp only [reduceIte]
      split <;> rfl
  | some msg =>
    have happ : assistantAppends inc e = true := by
      rw [← auxExtractAssistantIsSome redact anon inc e, hE]; rfl
    constructor
    · intro _
      unfold processEntry
      simp only [h, if_neg hne, hE]
      simp only [reduceIte]
      constructor <;> (split <;> simp [usageIn, usageCache, usageOut])
    · intro hF
      rw [happ] at hF
      exact absurd hF (by simp)

/-- C5 counterexample: an assistant record reporting 5 input, 7 cache-read
and 3 output tokens but carrying no segments contributes zero messages and
leaves every token counter at zero, contrary to the claim that counters
accumulate for every assistant record. -/
theorem claim5_counterexample :
    (processEntries (fun t => t) passthroughAnon true (initPState (sN "s"))
        [eTokenNoMsg]).stats.inputTokens = 0
    ∧ (processEntries (fun t => t) passthroughAnon true (initPState (sN "s"))
        [eTokenNoMsg]).stats.outputTokens = 0
    ∧ usageIn eTokenNoMsg + usageCache eTokenNoMsg = 12
    ∧ usageOut eTokenNoMsg = 3
    ∧ eTokenNoMsg.etype = some (sN "assistant") := by decide

/-- Witness for C5 (amended) at a contributing assistant record. -/
theorem claim5_witness :
    (processEntry (fun t => t) passthroughAnon true (initPState (sN "s")) eAsstFirst).stats.inputTokens
        = (initPState (sN "s")).stats.inputTokens + (usageIn eAsstFirst + usageCache eAsstFirst)
    ∧ (processEntry (fun t => t) passthroughAnon true (initPState (sN "s")) eAsstFirst).stats.outputTokens
        = (initPState (sN "s")).stats.outputTokens + usageOut eAsstFirst :=
  (claim5_amended_token_accumulation (fun t => t) passthroughAnon true
    (initPState (sN "s")) eAsstFirst rfl).1 (by decide)

/-- `orO` with no fallback. -/
theorem auxOrONone (a : Option NormTs) : orO a none = a := by cases a <;> rfl

/-- `orO` is associative. -/
theorem auxOrOAssoc (a b c : Option NormTs) : orO (orO a b) c = orO a (orO b c) := by
  cases a <;> cases b <;> rfl

/-- `_extract_user_content` in terms of the raw content and the appending
condition. -/
theorem auxExtractUserEq (anon : TextAnon) (e : Entry) :
    extractUserContent anon e
      = if userAppends e then some (anon.text (rawUserContent e)) else none := by
  unfold extractUserContent userAppends rawUserContent
  by_cases h : (match (e.message.getD defMsgData).content with
      | .str s => s
      | .blocks bs =>
        List.intercalate (sN "\n")
          (bs.filterMap (fun b => match b with | .text s => some s | _ => none))) = []
  · simp [h]
  · by_cases h2 : pyStrip (match (e.message.getD defMsgData).content with
        | .str s => s
        | .blocks bs =>
          List.intercalate (sN "\n")
            (bs.filterMap (fun b => match b with | .text s => some s | _ => none))) = []
    · simp [h, h2]
    · simp [h, h2]

/-- `start_time` after one record: assigned (while still unset) only by a
message-contributing user record. -/
theorem auxProcessEntryStart (redact : List Nat → List Nat) (anon : TextAnon)
    (inc : Bool) (st : PState) (e : Entry) :
    (processEntry redact anon inc st e).meta.startTime
      = if e.etype = some (sN "user") ∧ userAppends e = true
        then orO st.meta.startTime (normTs e.timestamp) else st.meta.startTime := by
  unfold processEntry
  rw [auxExtractUserEq]
  by_cases hcap : st.meta.cwd = none ∧ optTruthy e.cwd = true <;>
    by_cases hu : e.etype = some (sN "user")
  all_goals
    first
    | (by_cases ha : userAppends e = true
       · simp [hcap, hu, ha]
         cases hst : st.meta.startTime <;> simp [orO, hst]
       · simp [hcap, hu, ha])
    | (simp [hcap, hu]
       by_cases hA : e.etype = some (sN "assistant") <;>
         [skip; simp [hA]] <;>
         cases hE : extractAssistantContent redact anon inc e <;> simp [hA, hE])

/-- `end_time` after one record: assigned by every message-contributing
record, user or assistant. -/
theorem auxProcessEntryEnd (redact : List Nat → List Nat) (anon : TextAnon)
    (inc : Bool) (st : PState) (e : Entry) :
    (processEntry redact anon inc st e).meta.endTime
      = if entryAppends inc e then normTs e.timestamp else st.meta.endTime := by
  unfold processEntry entryAppends
  rw [auxExtractUserEq]
  by_cases hcap : st.meta.cwd = none ∧ optTruthy e.cwd = true <;>
    by_cases hu : e.etype = some (sN "user")
  all_goals
    first
    | (by_cases ha : userAppends e = true
       · simp [hcap, hu, ha]
       · simp [hcap, hu, ha])
    | (by_cases hA : e.etype = some (sN "assistant")
       · cases hE : extractAssistantContent redact anon inc e with
         | none =>
           have happ : assistantAppends inc e = false := by
             rw [← auxExtractAssistantIsSome redact anon inc e, hE]; rfl
           simp [hcap, hu, hA, hE, happ, (by decide : ¬(sN "assistant" = sN "user"))]
         | some msg =>
           have happ : assistantAppends inc e = true := by
             rw [← auxExtractAssistantIsSome redact anon inc e, hE]; rfl
           simp [hcap, hu, hA, hE, happ, (by decide : ¬(sN "assistant" = sN "user"))]
       · simp [hcap, hu, hA])

/-- `start_time` over a record sequence, from any starting state. -/
theorem auxEntriesStart (redact : List Nat → List Nat) (anon : TextAnon) (inc : Bool) :
    ∀ (es : List Entry) (st : PState),
      (processEntries redact anon inc st es).meta.startTime
        = orO st.meta.startTime (userTsList es).head? := by
  intro es
  induction es with
  | nil => intro st; simp [processEntries, userTsList, auxOrONone]
  | cons e es ih =>
    intro st
    have hstep : (processEntries redact anon inc st (e :: es))
        = processEntries redact anon inc (processEntry redact anon inc st e) es := rfl
    rw [hstep, ih, auxProcessEntryStart]
    by_cases hc : e.etype = some (sN "user") ∧ userAppends e = true
    · have hfilter : userTsList (e :: es)
          = match normTs e.timestamp with
            | some t => t :: userTsList es
            | none => userTsList es := by
        unfold userTsList
        rw [List.filter_cons]
        have : (decide (e.etype = some (sN "user")) && userAppends e) = true := by
          simp [hc.1, hc.2]
        rw [if_pos this, List.filterMap_cons]
        cases normTs e.timestamp <;> simp
      rw [if_pos hc, auxOrOAssoc, hfilter]
      cases hts : normTs e.timestamp <;> simp [orO]
    · have hfilter : userTsList (e :: es) = userTsList es := by
        unfold userTsList
        rw [List.filter_cons]
        have : (decide (e.etype = some (sN "user")) && userAppends e) = false := by
          rcases Decidable.em (e.etype = some (sN "user")) with h | h
          · have : userAppends e = false := by
              cases hb : userAppends e
              · rfl
              · exact absurd ⟨h, hb⟩ hc
            simp [this]
          · simp [h]
        rw [this]
        simp
      rw [if_neg hc, hfilter]

/-- `getLast?` of a cons in terms of the tail's `getLast?`. -/
theorem auxGetLastCons {α : Type} (x : α) (l : List α) :
    (x :: l).getLast? = some (l.getLast?.getD x) := by
  induction l generalizing x with
  | nil => rfl
  | cons y l ih =>
    rw [List.getLast?_cons_cons, ih]
    cases l.getLast? <;> simp

/-- `end_time` over a record sequence, from any starting state. -/
theorem auxEntriesEnd (redact : List Nat → List Nat) (anon : TextAnon) (inc : Bool) :
    ∀ (es : List Entry) (st : PState),
      (processEntries redact anon inc st es).meta.endTime
        = (match (es.filter (entryAppends inc)).getLast? with
           | some x => normTs x.timestamp
           | none => st.meta.endTime) := by
  intro es
  induction es with
  | nil => intro st; simp [processEntries]
  | cons e es ih =>
    intro st
    have hstep : (processEntries redact anon inc st (e :: es))
        = processEntries redact anon inc (processEntry redact anon inc st e) es := rfl
    rw [hstep, ih]
    rw [List.filter_cons]
    cases hc : entryAppends inc e with
    | true =>
      rw [if_pos rfl, auxGetLastCons]
      cases hg : (List.filter (entryAppends inc) es).getLast? with
      | none => simp [hg, auxProcessEntryEnd, hc]
      | some x => simp [hg]
    | false =>
      simp only [Bool.false_eq_true, if_false]
      cases hg : (List.filter (entryAppends inc) es).getLast? with
      | none => simp [hg, auxProcessEntryEnd, hc]
      | some x => simp [hg]

/-- C4 amended: `start_time` is assigned from user records only — it ends up
being the timestamp of the first message-contributing user record that has a
normalizable timestamp — while `end_time` is set from every appended message
(user or assistant) in processing order, so after parsing it equals the
timestamp of the last contributing record. -/
theorem claim4_amended_time_bounds (redact : List Nat → List Nat) (anon : TextAnon)
    (inc : Bool) (sid : List Nat) (es : List Entry) :
    (processEntries redact anon inc (initPState sid) es).meta.startTime
      = (userTsList es).head?
    ∧ (processEntries redact anon inc (initPState sid) es).meta.endTime
      = (match (es.filter (entryAppends inc)).getLast? with
         | some e => normTs e.timestamp
         | none => none) := by
  constructor
  · rw [auxEntriesStart]
    rfl
  · rw [auxEntriesEnd]
    cases (List.filter (entryAppends inc) es).getLast? <;> rfl

/-- C4 counterexample: a session whose only (hence first) appended message
comes from an assistant record carries that record's timestamp on the
message, yet `start_time` stays unset — so `start_time` is not set from the
first appended message "whatever that message's role". -/
theorem claim4_counterexample :
    (processEntries (fun t => t) passthroughAnon true (initPState (sN "s"))
        [eAsstFirst]).messages.length = 1
    ∧ ((processEntries (fun t => t) passthroughAnon true (initPState (sN "s"))
        [eAsstFirst]).messages.head?.map (fun m => m.timestamp))
      = some (some (.iso (sN "2024-01-01T00:00:00Z")))
    ∧ (processEntries (fun t => t) passthroughAnon true (initPState (sN "s"))
        [eAsstFirst]).meta.startTime = none := by
  refine ⟨by decide, by decide, by decide⟩

/-- `breakAtC` finds the first separator. -/
theorem auxBreakAtCAppend (ch : Nat) (a b : List Nat) (h : ch ∉ a) :
    breakAtC ch (a ++ ch :: b) = some (a, b) := by
  induction a with
  | nil => simp [breakAtC]
  | cons x a ih =>
    have hx : ¬x = ch := by rintro rfl; exact h (List.mem_cons_self _ _)
    have ha : ch ∉ a := fun hm => h (List.mem_cons_of_mem _ hm)
    simp [breakAtC, hx, ih ha]

/-- `idxOfC` over a separator-free left part. -/
theorem auxIdxOfCAppend (ch : Nat) (a b : List Nat) (h : ch ∉ a) :
    idxOfC ch (a ++ b) = (idxOfC ch b).map (· + a.length) := by
  induction a with
  | nil =>
    simp only [List.nil_append, List.length_nil]
    cases idxOfC ch b <;> simp
  | cons x a ih =>
    have hx : ¬x = ch := by rintro rfl; exact h (List.mem_cons_self _ _)
    have ha : ch ∉ a := fun hm => h (List.mem_cons_of_mem _ hm)
    rw [List.cons_append]
    simp only [idxOfC, hx, if_false, ih ha]
    cases idxOfC ch b <;> simp
    all_goals omega

/-- `idxOfC` at the first separator. -/
theorem auxIdxOfCAt (ch : Nat) (t r : List Nat) (h : ch ∉ t) :
    idxOfC ch (t ++ ch :: r) = some t.length := by
  rw [auxIdxOfCAppend ch t (ch :: r) h]
  simp [idxOfC]

/-- `rIdxC` misses a separator-free list. -/
theorem auxRIdxCNone (ch : Nat) (l : List Nat) (h : ch ∉ l) : rIdxC ch l = none := by
  induction l with
  | nil => rfl
  | cons x l ih =>
    have hx : ¬x = ch := by rintro rfl; exact h (List.mem_cons_self _ _)
    have hl : ch ∉ l := fun hm => h (List.mem_cons_of_mem _ hm)
    simp [rIdxC, ih hl, hx]

/-- `rIdxC` finds the last separator. -/
theorem auxRIdxCLast (ch : Nat) (s t : List Nat) (h : ch ∉ t) :
    rIdxC ch (s ++ ch :: t) = some s.length := by
  induction s with
  | nil => simp [rIdxC, auxRIdxCNone ch t h]
  | cons x s ih => simp [rIdxC, ih]

/-- C7: provider-namespace stripping of raw tool names. For `mcp_<ns>_<rest>`
(the namespace segment underscore-free) the namespace up to the second
underscore is removed; for `mcp-<server>-<seg>_<rest>` (the marker underscore
being the first one past the prefix and the segment holding it hyphen-free)
everything through the end of the server segment is stripped; a name not
beginning with the prefix token is returned unchanged. -/
theorem claim7_strip_mcp :
    (∀ a b : List Nat, 95 ∉ a → stripMcp (sN "mcp_" ++ (a ++ (95 :: b))) = b)
    ∧ (∀ s t r : List Nat, 95 ∉ s → 95 ∉ t → 45 ∉ t →
        stripMcp (sN "mcp-" ++ (s ++ (45 :: (t ++ (95 :: r))))) = t ++ (95 :: r))
    ∧ (∀ name : List Nat, ¬(sN "mcp").isPrefixOf name → stripMcp name = name) := by
  refine ⟨?_, ?_, ?_⟩
  · intro a b ha
    show stripMcp (109 :: 99 :: 112 :: 95 :: (a ++ (95 :: b))) = b
    have e1 : sN "mcp" = [109, 99, 112] := rfl
    have e2 : sN "mcp_" = [109, 99, 112, 95] := rfl
    have hp1 : ([109, 99, 112] : List Nat).isPrefixOf
        (109 :: 99 :: 112 :: 95 :: (a ++ (95 :: b))) = true := by
      simp [List.isPrefixOf]
    have hp2 : ([109, 99, 112, 95] : List Nat).isPrefixOf
        (109 :: 99 :: 112 :: 95 :: (a ++ (95 :: b))) = true := by
      simp [List.isPrefixOf]
    unfold stripMcp
    rw [e1, e2, if_neg (by simp [hp1]), if_pos hp2]
    have hsplit : splitCN 95 2 (109 :: 99 :: 112 :: 95 :: (a ++ (95 :: b)))
        = [[109, 99, 112], a, b] := by
      show splitCN 95 2 ([109, 99, 112] ++ (95 :: (a ++ (95 :: b)))) = [[109, 99, 112], a, b]
      simp only [splitCN, auxBreakAtCAppend 95 [109, 99, 112] (a ++ (95 :: b)) (by decide),
        auxBreakAtCAppend 95 a b ha]
    rw [hsplit]
  · intro s t r hs ht45 ht
    show stripMcp (109 :: 99 :: 112 :: 45 :: (s ++ (45 :: (t ++ (95 :: r)))))
        = t ++ (95 :: r)
    have e1 : sN "mcp" = [109, 99, 112] := rfl
    have e2 : sN "mcp_" = [109, 99, 112, 95] := rfl
    have e3 : sN "mcp-" = [109, 99, 112, 45] := rfl
    set N := 109 :: 99 :: 112 :: 45 :: (s ++ (45 :: (t ++ (95 :: r)))) with hN
    have hp1 : ([109, 99, 112] : List Nat).isPrefixOf N = true := by
      rw [hN]; simp [List.isPrefixOf]
    have hp2 : ([109, 99, 112, 95] : List Nat).isPrefixOf N = false := by
      rw [hN]; simp [List.isPrefixOf]
    have hp3 : ([109, 99, 112, 45] : List Nat).isPrefixOf N = true := by
      rw [hN]; simp [List.isPrefixOf]
    unfold stripMcp
    rw [e1, e2, e3, if_neg (by simp [hp1]), if_neg (by simp [hp2]), if_pos hp3]
    have hfind : findFrom 95 4 N = some ((t.length + 1 + s.length) + 4) := by
      unfold findFrom
      have hd : N.drop 4 = s ++ (45 :: (t ++ (95 :: r))) := rfl
      rw [hd, auxIdxOfCAppend 95 s _ hs]
      have h45 : ¬(45 : Nat) = 95 := by decide
      simp only [idxOfC, h45, if_false, auxIdxOfCAt 95 t r ht45]
      simp
    have htake : N.take ((t.length + 1 + s.length) + 4)
        = (109 :: 99 :: 112 :: 45 :: s) ++ (45 :: t) := by
      have heq : N = ((109 :: 99 :: 112 :: 45 :: s) ++ (45 :: t)) ++ (95 :: r) := by
        rw [hN]; simp
      rw [heq, List.take_left']
      simp
      omega
    have hrfind : rfindBefore 45 ((t.length + 1 + s.length) + 4) N
        = some (109 :: 99 :: 112 :: 45 :: s).length := by
      unfold rfindBefore
      rw [htake, auxRIdxCLast 45 (109 :: 99 :: 112 :: 45 :: s) t ht]
    simp only [hfind, hrfind]
    rw [if_pos (by simp)]
    have hdrop : N.drop ((109 :: 99 :: 112 :: 45 :: s).length + 1) = t ++ (95 :: r) := by
      have heq : N = ((109 :: 99 :: 112 :: 45 :: s) ++ [45]) ++ (t ++ (95 :: r)) := by
        rw [hN]; simp
      rw [heq, List.drop_left']
      simp
    simp only [hdrop]
  · intro name h
    unfold stripMcp
    rw [if_pos (Or.inr h)]

/-- Messages pass unchanged through the working-directory capture. -/
theorem auxCursorCwdMsgs (anon : TextAnon) (st : CState) (b : CBubble) :
    (cursorCaptureCwd anon st b).messages = st.messages := by
  unfold cursorCaptureCwd
  repeat' split
  all_goals rfl

/-- Messages pass unchanged through the first-sight captures. -/
theorem auxCursorCaptureMsgs (anon : TextAnon) (st : CState) (b : CBubble) :
    (cursorCapture anon st b).messages = st.messages := by
  unfold cursorCapture
  cases hmn : b.modelName with
  | none => exact auxCursorCwdMsgs anon st b
  | some mn =>
    show (if (cursorCaptureCwd anon st b).meta.model = none ∧ pyStrip mn ≠ [] then
        ({ cursorCaptureCwd anon st b with
           meta := { (cursorCaptureCwd anon st b).meta with model := some mn } } : CState)
      else cursorCaptureCwd anon st b).messages = st.messages
    by_cases h : (cursorCaptureCwd anon st b).meta.model = none ∧ pyStrip mn ≠ []
    · rw [if_pos h]
      exact auxCursorCwdMsgs anon st b
    · rw [if_neg h]
      exact auxCursorCwdMsgs anon st b

/-- Messages pass unchanged through token-count accumulation. -/
theorem auxCursorTokenAccMsgs (b : CBubble) (st : CState) :
    (cursorTokenAcc b st).messages = st.messages := by
  unfold cursorTokenAcc
  split <;> rfl

/-- Messages pass unchanged through the model sentinel. -/
theorem auxCursorFinalizeMsgs (st : CState) :
    (cursorFinalize st).messages = st.messages := by
  unfold cursorFinalize
  split <;> rfl

/-- One dispatch step either leaves the messages unchanged or appends exactly
one message that carries content, thinking or a non-empty tool-use list. -/
theorem auxCursorDispatchMessages (anon : TextAnon) (redact : List Nat → List Nat)
    (jl : List Nat → Option JsonV) (inc : Bool) (pti : List Nat → JsonV → List Nat)
    (b : CBubble) (ts : Option NormTs) (st : CState) :
    (cursorDispatch anon redact jl inc pti b ts st).messages = st.messages
    ∨ ∃ msg, (cursorDispatch anon redact jl inc pti b ts st).messages
        = st.messages ++ [msg] ∧ cmsgNonEmpty msg := by
  unfold cursorDispatch
  by_cases h1 : b.btype = some 1
  · simp only [h1, reduceIte]
    by_cases htext : pyStrip (b.text.getD []) = []
    · left; simp [htext]
    · right
      simp only [htext, reduceIte]
      rw [auxCursorTokenAccMsgs]
      exact ⟨_, rfl, Or.inl (by simp)⟩
  · simp only [h1, reduceIte]
    by_cases h2 : b.btype = some 2
    · simp only [h2, reduceIte]
      cases htfd : b.toolFormerData with
      | some tfd =>
        by_cases hname : tfd.name = []
        · simp only [hname, ne_eq, not_true_eq_false, reduceIte]
          by_cases hcond : pyStrip (b.text.getD []) = [] ∧ cursorThinkText inc b = []
          · left; simp [hcond]
          · right
            simp only [hcond, reduceIte]
            rw [auxCursorTokenAccMsgs]
            refine ⟨_, rfl, ?_⟩
            rcases Decidable.em (pyStrip (b.text.getD []) = []) with htext | htext
            · have hth : cursorThinkText inc b ≠ [] := fun h => hcond ⟨htext, h⟩
              right; left
              simp [hth]
            · left
              simp [htext]
        · simp only [hname, ne_eq, not_false_eq_true, reduceIte]
          right
          rw [auxCursorTokenAccMsgs]
          exact ⟨_, rfl, Or.inr (Or.inr ⟨_, rfl, by simp⟩)⟩
      | none =>
        simp only [reduceIte]
        by_cases hcond : pyStrip (b.text.getD []) = [] ∧ cursorThinkText inc b = []
        · left; simp [hcond]
        · right
          simp only [hcond, reduceIte]
          rw [auxCursorTokenAccMsgs]
          refine ⟨_, rfl, ?_⟩
          rcases Decidable.em (pyStrip (b.text.getD []) = []) with htext | htext
          · have hth : cursorThinkText inc b ≠ [] := fun h => hcond ⟨htext, h⟩
            right; left
            simp [hth]
          · left
            simp [htext]
    · simp only [h2, reduceIte]
      left
      rw [auxCursorTokenAccMsgs]

/-- A fold preserves a per-message invariant when each step only keeps or
adds messages satisfying it. -/
theorem auxFoldInv {σ α μ : Type} (msgs : σ → List μ) (P : μ → Prop)
    (step : σ → α → σ)
    (h : ∀ s a m, m ∈ msgs (step s a) → m ∈ msgs s ∨ P m) :
    ∀ (l : List α) (s : σ), (∀ m ∈ msgs s, P m) → ∀ m ∈ msgs (l.foldl step s), P m := by
  intro l
  induction l with
  | nil => intro s hs; exact hs
  | cons a l ih =>
    intro s hs m hm
    exact ih (step s a) (fun m' hm' => (h s a m' hm').elim (hs m') id) m hm

/-- A message produced by `_extract_assistant_content` carries at least one of
content, thinking or a non-empty tool-use list. -/
theorem auxExtractAssistantNonEmptyMsg (redact : List Nat → List Nat) (anon : TextAnon)
    (inc : Bool) (e : Entry) (msg : PMsg)
    (hE : extractAssistantContent redact anon inc e = some msg) : pmsgNonEmpty msg := by
  rw [auxExtractAssistantChar] at hE
  cases hb : blocksOf e with
  | none => rw [hb] at hE; cases hE
  | some bs =>
    rw [hb] at hE
    simp only [] at hE
    by_cases hcond : textsOfBlocks anon bs = [] ∧ toolsOfBlocks redact anon bs = []
        ∧ thinksOfBlocks anon inc bs = []
    · rw [if_pos hcond] at hE; cases hE
    · rw [if_neg hcond] at hE
      injection hE with hmsg
      subst hmsg
      by_cases hT : textsOfBlocks anon bs = []
      · by_cases hH : thinksOfBlocks anon inc bs = []
        · have hU : toolsOfBlocks redact anon bs ≠ [] := fun hu => hcond ⟨hT, hu, hH⟩
          right; right
          exact ⟨toolsOfBlocks redact anon bs, by simp [hU], hU⟩
        · right; left; simp [hH]
      · left; simp [hT]

/-- The invariant is insensitive to the timestamp field. -/
theorem auxPmsgTs (msg : PMsg) (ts : Option NormTs) (h : pmsgNonEmpty msg) :
    pmsgNonEmpty { msg with timestamp := ts } := by
  simpa [pmsgNonEmpty] using h

/-- One `_process_entry` step either leaves the messages unchanged or appends
exactly one message satisfying the invariant. -/
theorem auxProcessEntryMessages (redact : List Nat → List Nat) (anon : TextAnon)
    (inc : Bool) (st : PState) (e : Entry) :
    (processEntry redact anon inc st e).messages = st.messages
    ∨ ∃ msg, (processEntry redact anon inc st e).messages = st.messages ++ [msg]
        ∧ pmsgNonEmpty msg := by
  unfold processEntry
  rw [auxExtractUserEq]
  by_cases hcap : st.meta.cwd = none ∧ optTruthy e.cwd = true <;>
    by_cases hu : e.etype = some (sN "user")
  all_goals try
    (by_cases ha : userAppends e = true
     · right
       simp only [hcap, hu, ha, reduceIte]
       refine ⟨_, rfl, ?_⟩
       left
       simp
     · left
       simp [hcap, hu, ha])
  all_goals
    by_cases hA : e.etype = some (sN "assistant")
    · cases hE : extractAssistantContent redact anon inc e with
      | none =>
        left
        simp [hcap, hu, hA, hE, (by decide : ¬(sN "assistant" = sN "user"))]
      | some msg =>
        right
        refine ⟨{ msg with timestamp := normTs e.timestamp }, ?_,
          auxPmsgTs msg _ (auxExtractAssistantNonEmptyMsg redact anon inc e msg hE)⟩
        simp [hcap, hu, hA, hE, (by decide : ¬(sN "assistant" = sN "user"))]
    · left
      simp [hcap, hu, hA]

/-- C6: every message either parser appends carries at least one of content,
thinking or a non-empty tool-use list (empty turns are dropped, never
represented as present-but-empty), and an assistant record with no surviving
text, thinking or tool-use segments contributes zero messages. -/
theorem claim6_message_invariant :
    (∀ (redact : List Nat → List Nat) (anon : TextAnon) (inc : Bool) (sid : List Nat)
        (es : List Entry),
      ∀ m ∈ (processEntries redact anon inc (initPState sid) es).messages, pmsgNonEmpty m)
    ∧ (∀ (redact : List Nat → List Nat) (anon : TextAnon) (inc : Bool) (st : PState)
        (e : Entry), e.etype = some (sN "assistant") → assistantAppends inc e = false →
        (processEntry redact anon inc st e).messages = st.messages)
    ∧ (∀ (anon : TextAnon) (redact : List Nat → List Nat) (jl : List Nat → Option JsonV)
        (inc : Bool) (pti : List Nat → JsonV → List Nat) (sid : List Nat)
        (bubbles : List (Option CBubble)),
      ∀ m ∈ (parseCursorBubbles anon redact jl inc pti sid bubbles).messages,
        cmsgNonEmpty m) := by
  refine ⟨?_, ?_, ?_⟩
  · intro redact anon inc sid es m hm
    refine auxFoldInv PState.messages pmsgNonEmpty (processEntry redact anon inc)
      ?_ es (initPState sid) ?_ m hm
    · intro s a m' hm'
      rcases auxProcessEntryMessages redact anon inc s a with h | ⟨msg, hmsg, hne⟩
      · rw [h] at hm'
        exact Or.inl hm'
      · rw [hmsg] at hm'
        rcases List.mem_append.mp hm' with h1 | h1
        · exact Or.inl h1
        · right
          rwa [List.mem_singleton.mp h1]
    · intro m' hm'
      cases hm'
  · intro redact anon inc st e hty happ
    have hE : extractAssistantContent redact anon inc e = none := by
      have h := auxExtractAssistantIsSome redact anon inc e
      rw [happ] at h
      cases ho : extractAssistantContent redact anon inc e
      · rfl
      · rw [ho] at h
        cases h
    unfold processEntry
    rw [auxExtractUserEq]
    by_cases hcap : st.meta.cwd = none ∧ optTruthy e.cwd = true <;>
      simp [hcap, hty, hE, (by decide : ¬(sN "assistant" = sN "user"))]
  · intro anon redact jl inc pti sid bubbles m hm
    unfold parseCursorBubbles at hm
    rw [auxCursorFinalizeMsgs] at hm
    refine auxFoldInv CState.messages cmsgNonEmpty
      (cursorStep anon redact jl inc pti) ?_ bubbles ⟨[], initCMeta sid, initStats⟩ ?_ m hm
    · intro s ob m' hm'
      cases ob with
      | none => exact Or.inl hm'
      | some b =>
        unfold cursorStep at hm'
        rcases auxCursorDispatchMessages anon redact jl inc pti b (cursorTs b.createdAt)
            (cursorCapture anon s b) with h | ⟨msg, hmsg, hne⟩
        · rw [h, auxCursorCaptureMsgs] at hm'
          exact Or.inl hm'
        · rw [hmsg, auxCursorCaptureMsgs] at hm'
          rcases List.mem_append.mp hm' with h1 | h1
          · exact Or.inl h1
          · right
            rwa [List.mem_singleton.mp h1]
    · intro m' hm'
      cases hm'

/-- Witness for C6 at concrete inputs for all three conjuncts. -/
theorem claim6_witness :
    pmsgNonEmpty ⟨sN "user", some (sN "hello"), none, none,
      some (.iso (sN "2024-01-01T00:00:01Z"))⟩
    ∧ (processEntry (fun t => t) passthroughAnon true (initPState (sN "s"))
        eTokenNoMsg).messages = (initPState (sN "s")).messages
    ∧ cmsgNonEmpty ⟨sN "user", some (sN "hola"), none, none,
        some (.iso (sN "2024-02-02T00:00:00Z"))⟩ := by
  refine ⟨?_, ?_, ?_⟩
  · refine claim6_message_invariant.1 (fun t => t) passthroughAnon true (sN "s") [eUserW] _ ?_
    rw [show (processEntries (fun t => t) passthroughAnon true (initPState (sN "s"))
        [eUserW]).messages
      = [⟨sN "user", some (sN "hello"), none, none,
          some (.iso (sN "2024-01-01T00:00:01Z"))⟩] from rfl]
    exact List.mem_singleton_self _
  · exact claim6_message_invariant.2.1 (fun t => t) passthroughAnon true
      (initPState (sN "s")) eTokenNoMsg rfl (by decide)
  · refine claim6_message_invariant.2.2 passthroughAnon (fun t => t) (fun _ => none) true
      (fun _ _ => []) (sN "s") [some bUserW] _ ?_
    rw [show (parseCursorBubbles passthroughAnon (fun t => t) (fun _ => none) true
        (fun _ _ => []) (sN "s") [some bUserW]).messages
      = [⟨sN "user", some (sN "hola"), none, none,
          some (.iso (sN "2024-02-02T00:00:00Z"))⟩] from rfl]
    exact List.mem_singleton_self _

/-- Witness for C7 at concrete provider-prefixed and plain names. -/
theorem claim7_witness :
    stripMcp (sN "mcp_linear_create_issue") = sN "create_issue"
    ∧ stripMcp (sN "mcp-linear-server_tool") = sN "server_tool"
    ∧ stripMcp (sN "hammer") = sN "hammer" := by
  refine ⟨?_, ?_, ?_⟩
  · exact claim7_strip_mcp.1 (sN "linear") (sN "create_issue") (by decide)
  · exact claim7_strip_mcp.2.1 (sN "linear") (sN "server") (sN "tool")
      (by decide) (by decide) (by decide)
  · exact claim7_strip_mcp.2.2 (sN "hammer") (by decide)


theorem auxLowerAlnum (n : Nat) : isAlnumA (lowerA n) = isAlnumA n := by
  unfold lowerA isAlnumA
  by_cases h : 65 ≤ n ∧ n ≤ 90
  · rw [if_pos h, decide_eq_decide]
    omega
  · rw [if_neg h]

theorem auxAlnumTransfer (a b : Nat) (h : lowerA a = lowerA b) :
    isAlnumA a = isAlnumA b := by
  rw [← auxLowerAlnum a, h, auxLowerAlnum b]

theorem auxCtxShift (p : Option Nat) (c : Nat) (rest : List Nat) (i : Nat) :
    ctxAt p (c :: rest) (i + 1) = ctxAt (some c) rest i := by
  cases i <;> simp [ctxAt]

theorem auxBareAtShift (u : List Nat) (p : Option Nat) (c : Nat) (rest : List Nat)
    (i : Nat) : bareAtB u p (c :: rest) (i + 1) = bareAtB u (some c) rest i := by
  unfold bareAtB
  rw [auxCtxShift, List.drop_succ_cons]

theorem auxScanFuel2 (m : Option Nat → List Nat → Option (Nat × List Nat)) :
    ∀ (f g : Nat) (p : Option Nat) (l : List Nat), l.length ≤ f → l.length ≤ g →
      scanSubF m f p l = scanSubF m g p l := by
  intro f
  induction f with
  | zero =>
    intro g p l hf hg
    have : l = [] := List.eq_nil_of_length_eq_zero (Nat.le_zero.mp hf)
    subst this
    cases g <;> rfl
  | succ f ih =>
    intro g p l hf hg
    cases l with
    | nil => cases g <;> rfl
    | cons c rest =>
      cases g with
      | zero => simp at hg
      | succ g =>
        simp only [scanSubF]
        cases hm : m p (c :: rest) with
        | none =>
          simp only []
          rw [ih g (some c) rest (by simpa using hf) (by simpa using hg)]
        | some v =>
          obtain ⟨k, repl⟩ := v
          cases k with
          | zero =>
            simp only []
            rw [ih g (some c) rest (by simpa using hf) (by simpa using hg)]
          | succ k =>
            simp only []
            rw [ih g ((c :: rest).get? k) (rest.drop k) ?_ ?_]
            · simp only [List.length_drop]
              simp only [List.length_cons] at hf
              omega
            · simp only [List.length_drop]
              simp only [List.length_cons] at hg
              omega

theorem auxScanFuel (m : Option Nat → List Nat → Option (Nat × List Nat))
    (f : Nat) (p : Option Nat) (l : List Nat) (h : l.length ≤ f) :
    scanSubF m f p l = scanSub m p l :=
  auxScanFuel2 m f l.length p l h le_rfl

theorem auxScanId (m : Option Nat → List Nat → Option (Nat × List Nat)) :
    ∀ (l : List Nat) (p : Option Nat),
      (∀ i < l.length, m (ctxAt p l i) (l.drop i) = none) →
      scanSub m p l = l := by
  intro l
  induction l with
  | nil => intro p _; rfl
  | cons c rest ih =>
    intro p h
    have h0 : m p (c :: rest) = none := by
      have := h 0 (by simp)
      simpa [ctxAt] using this
    show scanSubF m (c :: rest).length p (c :: rest) = c :: rest
    simp only [List.length_cons, scanSubF, h0]
    have ht : scanSub m (some c) rest = rest := by
      apply ih
      intro i hi
      have := h (i + 1) (by simpa using Nat.succ_lt_succ hi)
      rwa [auxCtxShift, List.drop_succ_cons] at this
    exact congrArg (c :: ·) ht

theorem aux2FirstBareNil (u : List Nat) (p : Option Nat) : specFirstBare u p [] = none := rfl

theorem aux2FirstBareCons (u : List Nat) (p : Option Nat) (c : Nat) (rest : List Nat) :
    specFirstBare u p (c :: rest)
      = if bareHereB u p (c :: rest) = true then some 0
        else (specFirstBare u (some c) rest).map (· + 1) := by
  unfold specFirstBare
  rw [List.length_cons, List.range_succ_eq_map, List.find?_cons]
  have h0 : bareAtB u p (c :: rest) 0 = bareHereB u p (c :: rest) := by
    simp [bareAtB, ctxAt]
  rw [h0]
  cases hb : bareHereB u p (c :: rest) with
  | true => rfl
  | false =>
    simp only []
    rw [List.find?_map]
    have he : (fun j => bareAtB u p (c :: rest) j) ∘ Nat.succ
        = fun j => bareAtB u (some c) rest j := by
      funext j
      simp only [Function.comp]
      exact auxBareAtShift u p c rest j
    rw [he]
    rfl

theorem aux2FirstBareSome (u : List Nat) (p : Option Nat) (l : List Nat) (i : Nat)
    (h : specFirstBare u p l = some i) : bareAtB u p l i = true :=
  List.find?_some h

theorem aux2ReplNone (u hsh : List Nat) (f : Nat) (p : Option Nat) (l : List Nat)
    (h : specFirstBare u p l = none) : specReplaceBareF u hsh f p l = l := by
  cases f with
  | zero => rfl
  | succ f => simp [specReplaceBareF, h]

theorem aux2ReplSome (u hsh : List Nat) (f : Nat) (p : Option Nat) (l : List Nat) (i : Nat)
    (h : specFirstBare u p l = some i) (hf : 1 ≤ f) :
    specReplaceBareF u hsh f p l
      = l.take i ++ hsh
        ++ specReplaceBareF u hsh (f - 1) (l.get? (i + u.length - 1))
            (l.drop (i + u.length)) := by
  cases f with
  | zero => omega
  | succ f => simp [specReplaceBareF, h]

theorem aux2FirstBareLen (u : List Nat) (p : Option Nat) (l : List Nat) (i : Nat)
    (h : specFirstBare u p l = some i) : 1 ≤ l.length := by
  cases l with
  | nil => rw [aux2FirstBareNil] at h; cases h
  | cons c rest => simp

theorem aux2ReplFuel (u hsh : List Nat) (hu : 1 ≤ u.length) :
    ∀ (f g : Nat) (p : Option Nat) (l : List Nat), l.length ≤ f → l.length ≤ g →
      specReplaceBareF u hsh f p l = specReplaceBareF u hsh g p l := by
  intro f
  induction f with
  | zero =>
    intro g p l hf hg
    have : l = [] := List.eq_nil_of_length_eq_zero (Nat.le_zero.mp hf)
    subst this
    rw [aux2ReplNone u hsh 0 p [] (aux2FirstBareNil u p), aux2ReplNone u hsh g p [] (aux2FirstBareNil u p)]
  | succ f ih =>
    intro g p l hf hg
    cases hfb : specFirstBare u p l with
    | none => rw [aux2ReplNone u hsh _ p l hfb, aux2ReplNone u hsh g p l hfb]
    | some i =>
      have hl1 : 1 ≤ l.length := aux2FirstBareLen u p l i hfb
      have hg1 : 1 ≤ g := le_trans hl1 hg
      rw [aux2ReplSome u hsh _ p l i hfb (by omega), aux2ReplSome u hsh g p l i hfb hg1]
      simp only [Nat.add_sub_cancel]
      have hlen : (l.drop (i + u.length)).length ≤ f := by
        simp only [List.length_drop]
        omega
      have hlen2 : (l.drop (i + u.length)).length ≤ g - 1 := by
        simp only [List.length_drop]
        omega
      rw [ih (g - 1) _ _ hlen hlen2]

theorem aux2MUserEq (u hsh : List Nat) (p : Option Nat) (l : List Nat) :
    mUser u hsh p l = if bareHereB u p l = true then some (u.length, hsh) else none := rfl

theorem aux2ScanEqSpec (u hsh : List Nat) (hu : 1 ≤ u.length) :
    ∀ (f : Nat) (p : Option Nat) (l : List Nat), l.length ≤ f →
      scanSub (mUser u hsh) p l = specReplaceBareF u hsh f p l := by
  intro f
  induction f with
  | zero =>
    intro p l hf
    have : l = [] := List.eq_nil_of_length_eq_zero (Nat.le_zero.mp hf)
    subst this
    rfl
  | succ f ih =>
    intro p l hf
    cases l with
    | nil => rw [aux2ReplNone u hsh _ p [] (aux2FirstBareNil u p)]; rfl
    | cons c rest =>
      have hrf : rest.length ≤ f := by simpa using hf
      by_cases hb : bareHereB u p (c :: rest) = true
      · have hm : mUser u hsh p (c :: rest) = some (u.length, hsh) := by
          rw [aux2MUserEq, if_pos hb]
        obtain ⟨n0, hn0⟩ : ∃ n0, u.length = n0 + 1 := ⟨u.length - 1, by omega⟩
        have hfb : specFirstBare u p (c :: rest) = some 0 := by
          rw [aux2FirstBareCons, if_pos hb]
        rw [aux2ReplSome u hsh (f + 1) p (c :: rest) 0 hfb (by omega)]
        simp only [List.take_zero, List.nil_append, Nat.zero_add, Nat.add_sub_cancel]
        show scanSubF (mUser u hsh) (c :: rest).length p (c :: rest) = _
        simp only [List.length_cons, scanSubF, hm, hn0]
        simp only [Nat.add_sub_cancel]
        have hdrop : (c :: rest).drop (n0 + 1) = rest.drop n0 := List.drop_succ_cons
        rw [auxScanFuel (mUser u hsh) rest.length ((c :: rest).get? n0) (rest.drop n0)
          (by simp [List.length_drop])]
        rw [ih ((c :: rest).get? n0) (rest.drop n0)
          (le_trans (by simp [List.length_drop]) hrf)]
        rw [hdrop]
      · have hm : mUser u hsh p (c :: rest) = none := by
          rw [aux2MUserEq, if_neg hb]
        have hfb : specFirstBare u p (c :: rest)
            = (specFirstBare u (some c) rest).map (· + 1) := by
          rw [aux2FirstBareCons, if_neg hb]
        have hlhs : scanSub (mUser u hsh) p (c :: rest)
            = c :: scanSub (mUser u hsh) (some c) rest := by
          show scanSubF (mUser u hsh) (c :: rest).length p (c :: rest) = _
          simp only [List.length_cons, scanSubF, hm]
          rfl
        rw [hlhs, ih (some c) rest hrf]
        cases hfbr : specFirstBare u (some c) rest with
        | none =>
          rw [aux2ReplNone u hsh f (some c) rest hfbr,
            aux2ReplNone u hsh (f + 1) p (c :: rest) (by rw [hfb, hfbr]; rfl)]
        | some i =>
          have hr1 : 1 ≤ rest.length := aux2FirstBareLen u (some c) rest i hfbr
          rw [aux2ReplSome u hsh f (some c) rest i hfbr (by omega)]
          rw [aux2ReplSome u hsh (f + 1) p (c :: rest) (i + 1) (by rw [hfb, hfbr]; rfl)
            (by omega)]
          simp only [Nat.add_sub_cancel, List.take_succ_cons]
          have e1 : i + 1 + u.length - 1 = i + u.length := by omega
          have e2 : i + 1 + u.length = (i + u.length) + 1 := by omega
          rw [e1, e2, List.drop_succ_cons]
          have e3 : i + u.length = (i + u.length - 1) + 1 := by omega
          rw [e3, List.get?_cons_succ, ← e3]
          rw [aux2ReplFuel u hsh hu (f - 1) f _ _ ?_ ?_]
          · simp
          · simp only [List.length_drop]
            omega
          · simp only [List.length_drop]
            omega

theorem aux2SubAtSuffix (a : List Nat) :
    ∀ (l : List Nat) (i : Nat), hasLead a (l.drop i) = true → subAt a l = true := by
  intro l
  induction l with
  | nil =>
    intro i h
    simp only [List.drop_nil] at h
    unfold hasLead at h
    simp only [List.take_nil] at h
    unfold subAt
    simp only [decide_eq_true_eq] at h ⊢
    exact h.symm
  | cons c rest ih =>
    intro i h
    cases i with
    | zero =>
      unfold subAt
      rw [List.drop_zero] at h
      rw [h]
      simp
    | succ i =>
      rw [List.drop_succ_cons] at h
      unfold subAt
      rw [ih i h]
      simp

theorem aux2CiLeadHasLead (u w : List Nat) (h : ciLead u w = true) :
    hasLead (lowers u) (lowers w) = true := by
  unfold ciLead at h
  unfold hasLead lowers
  unfold lowers at h
  simp only [decide_eq_true_eq] at h ⊢
  rw [List.length_map, ← List.map_take]
  exact h

theorem aux2LowersDrop (t : List Nat) (i : Nat) : lowers (t.drop i) = (lowers t).drop i := by
  unfold lowers
  rw [List.map_drop]

theorem aux2CiLeadCiSub (u t : List Nat) (i : Nat) (h : ciLead u (t.drop i) = true) :
    ciSub u t = true := by
  unfold ciSub
  apply aux2SubAtSuffix (lowers u) (lowers t) i
  rw [← aux2LowersDrop]
  exact aux2CiLeadHasLead u (t.drop i) h

theorem aux2NoCiNoBare (u t : List Nat) (hci : ciSub u t = false) (p : Option Nat) (i : Nat) :
    bareAtB u p t i = false := by
  by_contra hb
  have hb' : bareAtB u p t i = true := by
    cases hx : bareAtB u p t i
    · exact absurd hx hb
    · rfl
  unfold bareAtB bareHereB at hb'
  simp only [Bool.and_eq_true] at hb'
  have := aux2CiLeadCiSub u t i hb'.1.2
  rw [hci] at this
  cases this

theorem aux2FirstBareNoCi (u t : List Nat) (hci : ciSub u t = false) (p : Option Nat) :
    specFirstBare u p t = none := by
  unfold specFirstBare
  rw [List.find?_eq_none]
  intro j _
  rw [aux2NoCiNoBare u t hci p j]
  simp

theorem aux2SubAtEmbed (a : List Nat) (ha : a ≠ []) :
    ∀ (x y : List Nat), subAt a (x ++ a ++ y) = true := by
  intro x
  induction x with
  | nil =>
    intro y
    simp only [List.nil_append]
    match a, ha with
    | a0 :: a', _ =>
      show subAt (a0 :: a') ((a0 :: a') ++ y) = true
      have h1 : hasLead (a0 :: a') ((a0 :: a') ++ y) = true := by
        unfold hasLead
        rw [List.take_left]
        simp
      show (hasLead (a0 :: a') ((a0 :: a') ++ y) || subAt (a0 :: a') (a' ++ y)) = true
      rw [h1]
      simp
  | cons d x' ih =>
    intro y
    show (hasLead a (d :: (x' ++ a ++ y)) || subAt a (x' ++ a ++ y)) = true
    rw [ih y]
    simp

theorem aux2AnonLongEqSpec (u hsh home text : List Nat) (h4 : 4 ≤ u.length) :
    anonymizeText text u hsh home = specReplaceBare u hsh text := by
  have hu0 : u ≠ [] := by
    intro h
    rw [h] at h4
    simp at h4
  unfold anonymizeText
  by_cases ht : text = [] ∨ u = []
  · rcases ht with ht | ht
    · subst ht
      rw [if_pos (Or.inl rfl)]
      rfl
    · exact absurd ht hu0
  · rw [if_neg ht]
    by_cases hci : ciSub u text = true
    · rw [if_neg (by simp [hci]), if_pos h4]
      exact aux2ScanEqSpec u hsh (by omega) text.length none text le_rfl
    · have hcif : ciSub u text = false := by
        cases hx : ciSub u text
        · rfl
        · exact absurd hx hci
      rw [if_pos (by simp [hcif])]
      unfold specReplaceBare
      rw [aux2ReplNone u hsh text.length none text (aux2FirstBareNoCi u text hcif none)]

theorem aux2AnonShortProse (u hsh home text : List Nat) (h4 : u.length < 4)
    (hm : ∀ i < text.length, mHome u hsh (ctxAt none text i) (text.drop i) = none)
    (hh : home = [] ∨ customHomePat home = none) :
    anonymizeText text u hsh home = text := by
  unfold anonymizeText
  by_cases ht : text = [] ∨ u = []
  · rw [if_pos ht]
  · rw [if_neg ht]
    by_cases hci : ciSub u text = true
    · rw [if_neg (by simp [hci]), if_neg (by omega)]
      have ht1 : homeSub u hsh text = text := auxScanId (mHome u hsh) text none hm
      show (if home = [] then homeSub u hsh text
        else match customHomePat home with
          | none => homeSub u hsh text
          | some toks => customSub u hsh toks (homeSub u hsh text)) = text
      by_cases hhe : home = []
      · rw [if_pos hhe]
        exact ht1
      · rw [if_neg hhe]
        rcases hh with hh | hh
        · exact absurd hh hhe
        · rw [hh]
          exact ht1
    · have hcif : ciSub u text = false := by
        cases hx : ciSub u text
        · rfl
        · exact absurd hx hci
      rw [if_pos (by simp [hcif])]

theorem aux2SepNotAlnum (c : Nat) (h : isSepC c = true) : isAlnumA c = false := by
  unfold isSepC at h
  rw [decide_eq_true_eq] at h
  rcases h with h | h | h <;> subst h <;> rfl

theorem aux2SepLower (c : Nat) (h : isSepC c = true) : lowerA c = c := by
  unfold isSepC at h
  rw [decide_eq_true_eq] at h
  rcases h with h | h | h <;> subst h <;> rfl

theorem aux2TakeWhileAppendAll (p : Nat → Bool) :
    ∀ (x y : List Nat), x.all p = true → (x ++ y).takeWhile p = x ++ y.takeWhile p := by
  intro x
  induction x with
  | nil => intro y _; rfl
  | cons c x' ih =>
    intro y hx
    rw [List.all_cons, Bool.and_eq_true] at hx
    show ((c :: x') ++ y).takeWhile p = _
    rw [List.cons_append, List.takeWhile_cons, hx.1]
    rw [ih y hx.2]
    rfl

theorem aux2TakeWhileNoHead (p : Nat → Bool) (c : Nat) (y : List Nat) (h : p c = false) :
    (c :: y).takeWhile p = [] := by
  rw [List.takeWhile_cons, h]
  rfl

theorem aux2LowersLength (l : List Nat) : (lowers l).length = l.length := by
  unfold lowers
  rw [List.length_map]

theorem aux2LowersAppend (a b : List Nat) : lowers (a ++ b) = lowers a ++ lowers b := by
  unfold lowers
  rw [List.map_append]

theorem aux2LowersCons (c : Nat) (l : List Nat) : lowers (c :: l) = lowerA c :: lowers l := rfl

theorem aux2KwNotSepHead (kw : List Nat)
    (hkw : lowers kw = lowers (sN "Users") ∨ lowers kw = lowers (sN "home")) :
    ∃ k0 kw', kw = k0 :: kw' ∧ isSepC k0 = false := by
  cases kw with
  | nil =>
    exfalso
    rcases hkw with h | h <;> exact absurd h (by decide)
  | cons k0 kw' =>
    refine ⟨k0, kw', rfl, ?_⟩
    cases hs : isSepC k0
    · rfl
    · exfalso
      have hlk : lowerA k0 = k0 := aux2SepLower k0 hs
      rcases hkw with h | h <;>
        (rw [aux2LowersCons] at h
         have h0 := (List.cons.injEq _ _ _ _).mp h |>.1
         rw [hlk] at h0
         subst h0
         exact absurd hs (by decide))

theorem aux2KwLenShape (kw Z : List Nat)
    (hkw : lowers kw = lowers (sN "Users") ∨ lowers kw = lowers (sN "home")) :
    kwLen (kw ++ Z) = some kw.length := by
  have hlen : kw.length = (lowers kw).length := (aux2LowersLength kw).symm
  rcases hkw with h | h
  · have hl5 : kw.length = 5 := by rw [hlen, h]; rfl
    unfold kwLen
    have hc : ciLead (sN "users") (kw ++ Z) = true := by
      unfold ciLead
      rw [decide_eq_true_eq]
      have h5 : (sN "users").length = 5 := rfl
      rw [h5, List.take_left' hl5, h]
      decide
    rw [hc]
    simp only [if_true]
    rw [hl5]
  · have hl4 : kw.length = 4 := by rw [hlen, h]; rfl
    obtain ⟨k0, kw', hkw0, _⟩ : ∃ k0 kw', kw = k0 :: kw' ∧ isSepC k0 = false :=
      aux2KwNotSepHead kw (Or.inr h)
    have hk0 : lowerA k0 = 104 := by
      rw [hkw0, aux2LowersCons] at h
      exact ((List.cons.injEq _ _ _ _).mp h).1
    unfold kwLen
    have hcf : ciLead (sN "users") (kw ++ Z) = false := by
      unfold ciLead
      apply decide_eq_false
      intro hbad
      have h5 : (sN "users").length = 5 := rfl
      rw [h5, hkw0, List.cons_append, List.take_succ_cons, aux2LowersCons, hk0] at hbad
      have h117 : lowers (sN "users") = [117, 115, 101, 114, 115] := by decide
      rw [h117] at hbad
      simp at hbad
    have hch : ciLead (sN "home") (kw ++ Z) = true := by
      unfold ciLead
      rw [decide_eq_true_eq]
      have h4 : (sN "home").length = 4 := rfl
      rw [h4, List.take_left' hl4, h]
    rw [hcf, hch]
    simp only [Bool.false_eq_true, if_false, if_true]
    rw [hl4]

theorem aux2TryTailShape (u u' s2 X rest : List Nat) (s2' : List Nat) (z0 : Nat)
    (hs2 : s2 = z0 :: s2')
    (hX : X = u' ++ rest)
    (hlu : u'.length = u.length)
    (hlow : lowers u' = lowers u)
    (hrest : rest = [] ∨ ∃ c r', rest = c :: r' ∧ isAlnumA c = false) :
    tryTail u (s2 ++ X) s2.length = some s2.length := by
  have hlenS2 : s2.length = s2'.length + 1 := by rw [hs2]; rfl
  rw [hlenS2]
  have hd : (s2 ++ X).drop (s2'.length + 1) = u' ++ rest := by
    rw [← hlenS2, List.drop_left, hX]
  unfold tryTail
  rw [hd]
  have hcl : ciLead u (u' ++ rest) = true := by
    unfold ciLead
    rw [decide_eq_true_eq, List.take_left' hlu, hlow]
  have hao : aheadOk u (u' ++ rest) = true := by
    unfold aheadOk
    rw [List.drop_left' hlu]
    rcases hrest with h | ⟨c, r', hc, hna⟩
    · rw [h]
    · rw [hc]
      simp [hna]
  rw [hcl, hao]
  rfl

theorem aux2MHomeShape (u u' hsh s1 kw s2 rest : List Nat) (p : Option Nat)
    (hs1 : s1 ≠ []) (hs1all : s1.all isSepC = true)
    (hs2 : s2 ≠ []) (hs2all : s2.all isSepC = true)
    (hkw : lowers kw = lowers (sN "Users") ∨ lowers kw = lowers (sN "home"))
    (hlu : u'.length = u.length) (hlow : lowers u' = lowers u)
    (hu1 : 1 ≤ u.length) (hall : u.all isAlnumA = true)
    (hrest : rest = [] ∨ ∃ c r', rest = c :: r' ∧ isAlnumA c = false) :
    mHome u hsh p (s1 ++ (kw ++ (s2 ++ (u' ++ rest))))
      = some (s1.length + kw.length + s2.length + u.length,
          (s1 ++ (kw ++ s2)) ++ hsh) := by
  obtain ⟨k0, kw', hkw0, hk0sep⟩ := aux2KwNotSepHead kw hkw
  have htw : (s1 ++ (kw ++ (s2 ++ (u' ++ rest)))).takeWhile isSepC = s1 := by
    rw [aux2TakeWhileAppendAll isSepC s1 _ hs1all, hkw0, List.cons_append,
      aux2TakeWhileNoHead isSepC k0 _ hk0sep, List.append_nil]
  have hd1 : (s1 ++ (kw ++ (s2 ++ (u' ++ rest)))).drop s1.length
      = kw ++ (s2 ++ (u' ++ rest)) := List.drop_left s1 _
  have hkl : kwLen (kw ++ (s2 ++ (u' ++ rest))) = some kw.length := aux2KwLenShape kw _ hkw
  have hd2 : (kw ++ (s2 ++ (u' ++ rest))).drop kw.length = s2 ++ (u' ++ rest) :=
    List.drop_left kw _
  have hu'ne : u' ≠ [] := by
    intro h
    rw [h] at hlu
    simp at hlu
    omega
  have htw2 : (s2 ++ (u' ++ rest)).takeWhile isSepC = s2 := by
    obtain ⟨v0, u'', hv⟩ : ∃ v0 u'', u' = v0 :: u'' := by
      cases u' with
      | nil => exact absurd rfl hu'ne
      | cons a b => exact ⟨a, b, rfl⟩
    obtain ⟨u0, u''', hu0⟩ : ∃ u0 u''', u = u0 :: u''' := by
      cases u with
      | nil => simp at hu1
      | cons a b => exact ⟨a, b, rfl⟩
    have hv0 : lowerA v0 = lowerA u0 := by
      rw [hv, hu0, aux2LowersCons, aux2LowersCons] at hlow
      exact ((List.cons.injEq _ _ _ _).mp hlow).1
    have hu0a : isAlnumA u0 = true := by
      rw [hu0, List.all_cons, Bool.and_eq_true] at hall
      exact hall.1
    have hv0a : isAlnumA v0 = true := by
      rw [auxAlnumTransfer v0 u0 hv0]
      exact hu0a
    have hv0sep : isSepC v0 = false := by
      cases hs : isSepC v0
      · rfl
      · rw [aux2SepNotAlnum v0 hs] at hv0a
        cases hv0a
    rw [aux2TakeWhileAppendAll isSepC s2 _ hs2all, hv, List.cons_append,
      aux2TakeWhileNoHead isSepC v0 _ hv0sep, List.append_nil]
  obtain ⟨z0, s2', hz⟩ : ∃ z0 s2', s2 = z0 :: s2' := by
    cases s2 with
    | nil => exact absurd rfl hs2
    | cons a b => exact ⟨a, b, rfl⟩
  have htt : tryTail u (s2 ++ (u' ++ rest)) s2.length = some s2.length :=
    aux2TryTailShape u u' s2 (u' ++ rest) rest s2' z0 hz rfl hlu hlow hrest
  have htake : (s1 ++ (kw ++ (s2 ++ (u' ++ rest)))).take
      (s1.length + kw.length + s2.length) = s1 ++ (kw ++ s2) := by
    have hassoc : s1 ++ (kw ++ (s2 ++ (u' ++ rest)))
        = (s1 ++ (kw ++ s2)) ++ (u' ++ rest) := by
      simp [List.append_assoc]
    rw [hassoc, List.take_left' (by simp [List.length_append]; omega)]
  simp only [mHome]
  rw [htw]
  rw [if_neg (by simp only [ne_eq, List.length_eq_zero]; exact hs1)]
  rw [hd1, hkl]
  simp only []
  rw [hd2, htw2, htt]
  simp only []
  rw [htake]

theorem aux2HomeSubShape (u u' hsh s1 kw s2 rest : List Nat)
    (hs1 : s1 ≠ []) (hs1all : s1.all isSepC = true)
    (hs2 : s2 ≠ []) (hs2all : s2.all isSepC = true)
    (hkw : lowers kw = lowers (sN "Users") ∨ lowers kw = lowers (sN "home"))
    (hlu : u'.length = u.length) (hlow : lowers u' = lowers u)
    (hu1 : 1 ≤ u.length) (hall : u.all isAlnumA = true)
    (hrest : rest = [] ∨ ∃ c r', rest = c :: r' ∧ isAlnumA c = false) :
    ∃ tail, homeSub u hsh (s1 ++ (kw ++ (s2 ++ (u' ++ rest))))
      = s1 ++ (kw ++ (s2 ++ (hsh ++ tail))) := by
  obtain ⟨a, s1', ha⟩ : ∃ a s1', s1 = a :: s1' := by
    cases s1 with
    | nil => exact absurd rfl hs1
    | cons a b => exact ⟨a, b, rfl⟩
  have hm := aux2MHomeShape u u' hsh s1 kw s2 rest none hs1 hs1all hs2 hs2all hkw hlu
    hlow hu1 hall hrest
  obtain ⟨L0, hL0⟩ : ∃ L0, s1.length + kw.length + s2.length + u.length = L0 + 1 := by
    refine ⟨s1.length + kw.length + s2.length + u.length - 1, ?_⟩
    rw [ha]
    simp only [List.length_cons]
    omega
  rw [hL0] at hm
  refine ⟨scanSubF (mHome u hsh) (s1' ++ (kw ++ (s2 ++ (u' ++ rest)))).length
      (((a :: s1') ++ (kw ++ (s2 ++ (u' ++ rest)))).get? L0)
      ((s1' ++ (kw ++ (s2 ++ (u' ++ rest)))).drop L0), ?_⟩
  subst ha
  show scanSubF (mHome u hsh) ((a :: s1') ++ (kw ++ (s2 ++ (u' ++ rest)))).length none
      ((a :: s1') ++ (kw ++ (s2 ++ (u' ++ rest)))) = _
  rw [List.cons_append] at hm ⊢
  simp only [List.length_cons, scanSubF, hm]
  simp [List.append_assoc]

theorem aux2AnonShortPath (u u' hsh s1 kw s2 rest : List Nat)
    (hu1 : 1 ≤ u.length) (hu4 : u.length < 4) (hall : u.all isAlnumA = true)
    (hlow : lowers u' = lowers u)
    (hs1 : s1 ≠ []) (hs1all : s1.all isSepC = true)
    (hs2 : s2 ≠ []) (hs2all : s2.all isSepC = true)
    (hkw : lowers kw = lowers (sN "Users") ∨ lowers kw = lowers (sN "home"))
    (hrest : rest = [] ∨ ∃ c r', rest = c :: r' ∧ isAlnumA c = false) :
    ∃ tail, anonymizeText (s1 ++ (kw ++ (s2 ++ (u' ++ rest)))) u hsh []
      = s1 ++ (kw ++ (s2 ++ (hsh ++ tail))) := by
  have hlu : u'.length = u.length := by
    rw [← aux2LowersLength u', ← aux2LowersLength u, hlow]
  have hune : u ≠ [] := by
    intro h
    rw [h] at hu1
    simp at hu1
  have htne : s1 ++ (kw ++ (s2 ++ (u' ++ rest))) ≠ [] := by
    intro h
    rcases List.append_eq_nil.mp h with ⟨h1, _⟩
    exact hs1 h1
  have hcis : ciSub u (s1 ++ (kw ++ (s2 ++ (u' ++ rest)))) = true := by
    unfold ciSub
    have hrw : lowers (s1 ++ (kw ++ (s2 ++ (u' ++ rest))))
        = (lowers s1 ++ (lowers kw ++ lowers s2)) ++ lowers u ++ lowers rest := by
      rw [aux2LowersAppend, aux2LowersAppend, aux2LowersAppend, aux2LowersAppend, hlow]
      simp [List.append_assoc]
    rw [hrw]
    exact aux2SubAtEmbed (lowers u)
      (by
        intro h
        apply hune
        have := congrArg List.length h
        rw [aux2LowersLength] at this
        exact List.eq_nil_of_length_eq_zero this)
      (lowers s1 ++ (lowers kw ++ lowers s2)) (lowers rest)
  unfold anonymizeText
  rw [if_neg (by
    intro h
    rcases h with h | h
    · exact htne h
    · exact hune h)]
  rw [if_neg (by simp [hcis]), if_neg (by omega)]
  obtain ⟨tail, htail⟩ := aux2HomeSubShape u u' hsh s1 kw s2 rest hs1 hs1all hs2 hs2all
    hkw hlu hlow hu1 hall hrest
  exact ⟨tail, htail⟩

/-- C2: username length boundary of anonymization. For a primary username of
length at least 4, `anonymize_text` equals the spec-side replacement of every
case-insensitive whole-token (bare-word) occurrence of the username by its
hash. For a username of length below 4, the text is returned unchanged when no
home-directory-marker path shape occurs in it (and the custom home pattern is
absent), while a short username occurring inside a home-marker shape (a run of
slash, backslash or hyphen, then `Users` or `home` case-insensitively, then
another such run, then the username followed by a non-alphanumeric boundary or
end of string) is replaced by the hash. -/
theorem claim2_username_length_boundary :
    (∀ (u hsh home text : List Nat), 4 ≤ u.length →
      anonymizeText text u hsh home = specReplaceBare u hsh text)
    ∧ (∀ (u hsh home text : List Nat), u.length < 4 →
        (∀ i < text.length, mHome u hsh (ctxAt none text i) (text.drop i) = none) →
        (home = [] ∨ customHomePat home = none) →
        anonymizeText text u hsh home = text)
    ∧ (∀ (u u' hsh s1 kw s2 rest : List Nat), 1 ≤ u.length → u.length < 4 →
        u.all isAlnumA = true → lowers u' = lowers u →
        s1 ≠ [] → s1.all isSepC = true → s2 ≠ [] → s2.all isSepC = true →
        (lowers kw = lowers (sN "Users") ∨ lowers kw = lowers (sN "home")) →
        (rest = [] ∨ ∃ c r', rest = c :: r' ∧ isAlnumA c = false) →
        ∃ tail, anonymizeText (s1 ++ (kw ++ (s2 ++ (u' ++ rest)))) u hsh []
          = s1 ++ (kw ++ (s2 ++ (hsh ++ tail)))) := by
  refine ⟨?_, ?_, ?_⟩
  · intro u hsh home text h4
    exact aux2AnonLongEqSpec u hsh home text h4
  · intro u hsh home text h4 hm hh
    exact aux2AnonShortProse u hsh home text h4 hm hh
  · intro u u' hsh s1 kw s2 rest h1 h2 h3 h4 h5 h6 h7 h8 h9 h10
    exact aux2AnonShortPath u u' hsh s1 kw s2 rest h1 h2 h3 h4 h5 h6 h7 h8 h9 h10

/-- Witness for C2 at concrete inputs for all three conjuncts. -/
theorem claim2_witness :
    anonymizeText (sN "hi alice!") (sN "alice") (sN "user_9f8e7d6c") []
      = specReplaceBare (sN "alice") (sN "user_9f8e7d6c") (sN "hi alice!")
    ∧ anonymizeText (sN "hi al") (sN "al") (sN "user_11112222") (sN "/Users/al")
      = sN "hi al"
    ∧ ∃ tail, anonymizeText (sN "/" ++ (sN "Users" ++ (sN "/" ++ (sN "al" ++ sN "/x"))))
        (sN "al") (sN "user_33334444") []
        = sN "/" ++ (sN "Users" ++ (sN "/" ++ (sN "user_33334444" ++ tail))) := by
  refine ⟨?_, ?_, ?_⟩
  · exact claim2_username_length_boundary.1 (sN "alice") (sN "user_9f8e7d6c") [] (sN "hi alice!") (by decide)
  · exact claim2_username_length_boundary.2.1 (sN "al") (sN "user_11112222") (sN "/Users/al") (sN "hi al")
      (by decide) (by decide) (Or.inr (by decide))
  · exact claim2_username_length_boundary.2.2 (sN "al") (sN "al") (sN "user_33334444") (sN "/") (sN "Users")
      (sN "/") (sN "/x") (by decide) (by decide) (by decide) rfl (by decide) (by decide)
      (by decide) (by decide) (Or.inl rfl) (Or.inr ⟨47, sN "x", rfl, by decide⟩)

end Dataclaw
